import Mathlib

/-!
# FilterLib: propagation chain, sliding-window buffers and filters

A shallow embedding of `buffer.h` and `filter.h`.

Conventions of the embedding.

* `float`, `fsize_t` and `time_t` are idealised as the rationals `ℚ` (exact arithmetic);
  a division by zero is a failure (`none`), but for `HistAntiJitter::which`, where the IEEE
  infinities are clamped as the source clamps them and only the NaN of `0 / 0` is a failure.
* The rounding to `float` is `f32`. It is applied where the source computes on converted
  integers: in `Buffer_T<int>::mix`, and to the bound `static_cast<fsize_t>(size() - 1)` of
  `Buffer::sample` in `Buffer.sampleFloat`; `Buffer.sample` takes this bound exactly.
* `size_t` is a natural number below `SIZE_MOD = 2 ^ 64`; its arithmetic wraps.
* `std::deque<T>` is a `List T`, position 0 being the front.
* Object pointers are indices into a heap (a list of chain nodes); `nullptr` is `none`.
* An operation whose behaviour is undefined in C++ (`pop_back` on an empty deque, a wild pointer)
  or that throws (`at` out of range) yields `none`.
* `ASSERT(statement)` expands to `(void)((statement));` (line 5 of `buffer.h`): it evaluates its
  argument and has no effect.
-/

namespace FilterLib

/-! ## Machine integers -/

/-- The modulus of `size_t` arithmetic, `2 ^ 64`. -/
def SIZE_MOD : Nat := 18446744073709551616

/-- Wrapping `a + b` on `size_t`. -/
def uadd (a b : Nat) : Nat := (a + b) % SIZE_MOD

/-- Wrapping `a - b` on `size_t` (for `b` below `SIZE_MOD`). -/
def usub (a b : Nat) : Nat := (a + SIZE_MOD - b) % SIZE_MOD

/-- The conversion `static_cast<size_t>(x)` of a non-negative float: truncation. -/
def toSize (x : ℚ) : Nat := ⌊x⌋.toNat

/-- The function `std::round`: nearest integer, halfway cases away from zero. -/
def round (x : ℚ) : ℤ := if 0 ≤ x then ⌊x + 1 / 2⌋ else ⌈x - 1 / 2⌉

/-- The macro `ASSERT(statement)`, which is `(void)((statement));`: no effect. -/
def ASSERT (_statement : Bool) : Option Unit := some ()

/-- The macro `clamp(v, l, h)`. -/
def clamp (v l h : ℚ) : ℚ := if v < l then l else if v > h then h else v

/-- Rounding to the nearest integer, halfway cases to the even one. -/
def roundEven (r : ℚ) : ℤ :=
  if r - ⌊r⌋ < 1 / 2 then ⌊r⌋
  else if r - ⌊r⌋ > 1 / 2 then ⌊r⌋ + 1
  else if ⌊r⌋ % 2 = 0 then ⌊r⌋ else ⌊r⌋ + 1

/-- The value of type `float` (IEEE 754 binary32) nearest to `x`, halfway cases to the even
significand: 24 significant bits, the exponent not below -126. Overflow to infinity is not
modelled. -/
def f32 (x : ℚ) : ℚ :=
  if x = 0 then 0
  else
    let q : ℚ := 2 ^ (max (Int.log 2 |x|) (-126) - 23)
    (roundEven (x / q) : ℚ) * q

/-! ## Value traits -/

/-- The enumeration `SampleType`. -/
inductive SampleType where
  | Nearest
  | Linear
  | Spline
deriving DecidableEq, Repr

/-- The trait `Buffer_T<ValueT>`: `zero`, `linear` and `mix`. -/
structure Buffer_T (T : Type) where
  zero : T
  linear : Bool
  mix : T → T → ℚ → T

/-- The specialisation `Buffer_T<int>`. Its `mix` computes
`std::round(a * (fsize_t(1.0) - u) + b * u)` in `float`: `a` and `b` are converted to `float`,
and the difference, both products and the sum are rounded to `float`. -/
def Buffer_T.int : Buffer_T ℤ where
  zero := 0
  linear := true
  mix := fun a b u => round (f32 (f32 (f32 (a : ℚ) * f32 (1 - u)) + f32 (f32 (b : ℚ) * u)))

/-- The specialisation `Buffer_T<float>`. -/
def Buffer_T.float : Buffer_T ℚ where
  zero := 0
  linear := true
  mix := fun a b u => a * (1 - u) + b * u

/-- The trait `Filter_T<ValueT>`: `zero` and `unit`. -/
structure Filter_T (T : Type) where
  zero : T
  unit : T

/-- The specialisation `Filter_T<int>`. -/
def Filter_T.int : Filter_T ℤ := ⟨0, 1⟩

/-- The specialisation `Filter_T<float>`. -/
def Filter_T.float : Filter_T ℚ := ⟨0, 1⟩

/-! ## `Buffer<T>`: the sliding window -/

/-- The constructor `Buffer::Buffer(size, parent)`, its deque part:
`std::deque<T>(size, trait::zero)`; the `ASSERT(size > 1)` has no effect. -/
def Buffer.new {T : Type} (tr : Buffer_T T) (size : Nat) : List T :=
  List.replicate size tr.zero

/-- The method `Buffer::out`: `std::deque<T>::front()`. -/
def Buffer.out {T : Type} (d : List T) : Option T := d.head?

/-- The method `Buffer::process`: `pop_back(); emplace_front(input); return input;`. -/
def Buffer.process {T : Type} (d : List T) (input : T) : Option (T × List T) :=
  match d with
  | [] => none
  | _ :: _ => some (input, input :: d.dropLast)

/-- The method `Buffer::fill`. -/
def Buffer.fill {T : Type} (d : List T) (value : T) : List T :=
  List.replicate d.length value

/-- The clamped index of `Buffer::sample` (lines 224 and 225), with the bound `size() - 1`
taken exactly; `Buffer.sampleIndexFloat` takes it as `float` holds it. -/
def Buffer.sampleIndex {T : Type} (d : List T) (index : ℚ) : ℚ :=
  min (max index 0) ((usub d.length 1 : Nat) : ℚ)

/-- The position `i0` of `Buffer::sample`. -/
def Buffer.sampleI0 {T : Type} (d : List T) (index : ℚ) : Nat :=
  toSize (Buffer.sampleIndex d index)

/-- The position `i1` of `Buffer::sample`, after `i1 = std::min(i1, size() - 1)`. -/
def Buffer.sampleI1 {T : Type} (d : List T) (index : ℚ) : Nat :=
  min (uadd (Buffer.sampleI0 d index) 1) (usub d.length 1)

/-- The fraction `ir` of `Buffer::sample`. -/
def Buffer.sampleIr {T : Type} (d : List T) (index : ℚ) : ℚ :=
  Buffer.sampleIndex d index - (Buffer.sampleI0 d index : ℚ)

/-- The method `Buffer::sample(index, type)`, with the bound `size() - 1` of the index taken
exactly; `at` fails out of range. -/
def Buffer.sample {T : Type} (tr : Buffer_T T) (d : List T) (index : ℚ)
    (type : SampleType) : Option T :=
  let type := if !tr.linear then SampleType.Nearest else type
  let i0 := Buffer.sampleI0 d index
  let i1 := Buffer.sampleI1 d index
  let ir := Buffer.sampleIr d index
  match type with
  | SampleType.Nearest => if ir < 1 / 2 then d[i0]? else d[i1]?
  | SampleType.Linear | SampleType.Spline =>
    match d[i0]?, d[i1]? with
    | some a, some b => some (tr.mix a b ir)
    | _, _ => none

/-- The bound of line 225, `static_cast<fsize_t>(size() - 1)`, as `float` holds it: the
`float` nearest to `size() - 1`. -/
def Buffer.sampleBound {T : Type} (d : List T) : ℚ :=
  f32 ((usub d.length 1 : Nat) : ℚ)

/-- The clamped index of `Buffer::sample` (lines 224 and 225) with the bound as `float` holds
it. -/
def Buffer.sampleIndexFloat {T : Type} (d : List T) (index : ℚ) : ℚ :=
  min (max index 0) (Buffer.sampleBound d)

/-- The position `i0` of `Buffer::sample`, from `Buffer.sampleIndexFloat`. -/
def Buffer.sampleFloatI0 {T : Type} (d : List T) (index : ℚ) : Nat :=
  toSize (Buffer.sampleIndexFloat d index)

/-- The position `i1` of `Buffer::sample`, after `i1 = std::min(i1, size() - 1)`, which is
computed on `size_t`. -/
def Buffer.sampleFloatI1 {T : Type} (d : List T) (index : ℚ) : Nat :=
  min (uadd (Buffer.sampleFloatI0 d index) 1) (usub d.length 1)

/-- The method `Buffer::sample(index, type)` for an index of type `float`, with the bound of
line 225 as `float` holds it; for a `float` index the difference `index - i0` is exact. Where
the conversion of `size() - 1` to `float` is exact this is `Buffer.sample`. -/
def Buffer.sampleFloat {T : Type} (tr : Buffer_T T) (d : List T) (index : ℚ)
    (type : SampleType) : Option T :=
  let type := if !tr.linear then SampleType.Nearest else type
  let i0 := Buffer.sampleFloatI0 d index
  let i1 := Buffer.sampleFloatI1 d index
  let ir := Buffer.sampleIndexFloat d index - (i0 : ℚ)
  match type with
  | SampleType.Nearest => if ir < 1 / 2 then d[i0]? else d[i1]?
  | SampleType.Linear | SampleType.Spline =>
    match d[i0]?, d[i1]? with
    | some a, some b => some (tr.mix a b ir)
    | _, _ => none

/-! ## `std::vector<T>` as used by `Buffer::to` -/

/-- A `std::vector<T>`: the elements `begin() .. end()` and the reserved cells past `end()`
(the capacity is the number of both). A reserved cell is `none` while nothing has been written
to it. -/
structure StdVector (T : Type) where
  elems : List T
  spare : List (Option T)
deriving DecidableEq, Repr

/-- The empty vector, without storage. -/
def StdVector.empty {T : Type} : StdVector T := ⟨[], []⟩

/-- The method `size()`. -/
def StdVector.size {T : Type} (v : StdVector T) : Nat := v.elems.length

/-- The method `capacity()`. -/
def StdVector.capacity {T : Type} (v : StdVector T) : Nat := v.elems.length + v.spare.length

/-- The method `reserve(n)`: when `n` exceeds the capacity the storage is reallocated and the
elements are moved over; `size()` is unchanged. -/
def StdVector.reserve {T : Type} (v : StdVector T) (n : Nat) : StdVector T :=
  if v.capacity < n then ⟨v.elems, List.replicate (n - v.elems.length) none⟩ else v

/-- The call `std::copy(first, last, v.begin())` for the source `src`: the cells from position
0 on are overwritten, `size()` is unchanged. What goes past `end()` lands in the reserved cells
(a write past the capacity is not modelled). -/
def StdVector.copyToBegin {T : Type} (src : List T) (v : StdVector T) : StdVector T :=
  ⟨src.take v.elems.length ++ v.elems.drop src.length,
   ((src.drop v.elems.length).map some).take v.spare.length
     ++ v.spare.drop (src.length - v.elems.length)⟩

/-- The unchecked access `v[i]`: the element at `i`, or past `end()` the reserved cell. -/
def StdVector.get {T : Type} (v : StdVector T) (i : Nat) : Option T :=
  if i < v.elems.length then v.elems[i]? else (v.spare[i - v.elems.length]?).join

/-- The call `std::sort(v.begin(), v.end())`. -/
def StdVector.sort {T : Type} [LinearOrder T] (v : StdVector T) : StdVector T :=
  ⟨v.elems.insertionSort (fun a b => a ≤ b), v.spare⟩

/-- The method `Buffer::to(vector)`: `vector.reserve(size()); std::copy(cbegin(), cend(),
vector.begin());`. -/
def Buffer.to {T : Type} (d : List T) (vector : StdVector T) : StdVector T :=
  StdVector.copyToBegin d (vector.reserve d.length)

/-- Whether `Buffer::to(vector)` stays inside `vector.begin() .. vector.end()`, the range that
`std::copy` may write to. -/
def Buffer.toInRange {T : Type} (d : List T) (vector : StdVector T) : Bool :=
  decide (d.length ≤ vector.size)

/-! ## `NuBuffer<T>::seek` -/

/-- The loop of `NuBuffer::seek` (lines 444 to 450) on the time reference `t`, from the state
`(l, r)`. The first argument bounds the number of iterations; `r - l` decreases with each. -/
def NuBuffer.seekLoop (t : List ℚ) (time : ℚ) : Nat → Nat → Nat → Option (Nat × Nat)
  | 0, l, r => if uadd l 1 < r then none else some (l, r)
  | fuel + 1, l, r =>
    if uadd l 1 < r then
      let m := uadd l r >>> 1
      match t[m]? with
      | none => none
      | some tm => if tm < time then seekLoop t time fuel l m else seekLoop t time fuel m r
    else some (l, r)

/-- The method `NuBuffer::seek(time, type)` on the time reference `t` (the deque of
`*m_timeRef`). -/
def NuBuffer.seek (t : List ℚ) (time : ℚ) (type : SampleType) : Option ℚ :=
  match NuBuffer.seekLoop t time t.length 0 (usub t.length 1) with
  | none => none
  | some (_, r) =>
    let l := if r > 0 then usub r 1 else 0
    match t[l]?, t[r]? with
    | some t0, some t1 =>
      match type with
      | SampleType.Nearest => some (if time - t0 < t1 - time then (l : ℚ) else (r : ℚ))
      | SampleType.Linear | SampleType.Spline =>
        if t1 - t0 = 0 then none
        else some ((l : ℚ) + clamp ((time - t0) / (t1 - t0)) 0 1)
    | _, _ => none

/-- The method `NuBuffer::atTime(time, type)`. -/
def NuBuffer.atTime {T : Type} (tr : Buffer_T T) (d : List T) (t : List ℚ) (time : ℚ)
    (type : SampleType) : Option T :=
  match NuBuffer.seek t time type with
  | none => none
  | some i => Buffer.sample tr d i type

/-! ## The filters of `filter.h` -/

/-- The method `Filter::process`: `m_out = input`. -/
def Filter.process {T : Type} (input : T) : T := input

/-- The method `Comparator::process`, returning the new `m_out`. -/
def Comparator.process {T : Type} [LinearOrder T] (tr : Filter_T T) (m_out m_low m_high : T)
    (input : T) : T :=
  if input < m_low then tr.zero
  else if input > m_high then tr.unit
  else m_out

/-- The call `*std::max_element(first, last)`: the first largest element. -/
def maxElement {T : Type} [LinearOrder T] : List T → Option T
  | [] => none
  | x :: xs => some (xs.foldl (fun largest y => if largest < y then y else largest) x)

/-- The call `*std::min_element(first, last)`: the first smallest element. -/
def minElement {T : Type} [LinearOrder T] : List T → Option T
  | [] => none
  | x :: xs => some (xs.foldl (fun smallest y => if y < smallest then y else smallest) x)

/-- The method `HoldHigh::process` on the deque of `m_input`, returning the new `m_out`. -/
def HoldHigh.process {T : Type} [LinearOrder T] (m_input : List T) (_input : T) : Option T :=
  maxElement m_input

/-- The method `HoldLow::process` on the deque of `m_input`, returning the new `m_out`. -/
def HoldLow.process {T : Type} [LinearOrder T] (m_input : List T) (_input : T) : Option T :=
  minElement m_input

/-- The method `Limiter::process`, returning the new `m_out`. -/
def Limiter.process {T : Type} [LinearOrder T] (m_low m_high : T) (input : T) : T :=
  if input < m_low then m_low else if input > m_high then m_high else input

/-- The method `MidAntiJitter::process` on the deque of `m_input`, returning the new `m_out`
and `m_tmpBuf`. -/
def MidAntiJitter.process {T : Type} [LinearOrder T] (m_input : List T)
    (m_tmpBuf : StdVector T) (_input : T) : Option (T × StdVector T) :=
  let m_tmpBuf := Buffer.to m_input m_tmpBuf
  let m_tmpBuf := m_tmpBuf.sort
  match m_tmpBuf.get (m_input.length / 2) with
  | none => none
  | some out => some (out, m_tmpBuf)

/-- The members of `HistAntiJitter` other than `m_input`. -/
structure HistAntiJitter where
  m_out : ℚ
  m_histSize : Nat
  m_margin : Nat
  m_tMin : ℚ
  m_tMax : ℚ
  m_tSpan : ℚ
  m_histogram : List Nat
deriving DecidableEq, Repr

/-- The method `HistAntiJitter::what(h)`. -/
def HistAntiJitter.what (s : HistAntiJitter) (h : Nat) : Option ℚ :=
  if usub s.m_histSize 1 = 0 then none
  else some (s.m_tSpan * (h : ℚ) / ((usub s.m_histSize 1 : Nat) : ℚ) + s.m_tMin)

/-- The method `HistAntiJitter::which(value)`. With `m_tSpan` zero the quotient is, in IEEE
arithmetic, minus infinity for a value below `m_tMin`, which line 330 replaces by 0, plus
infinity for a value above it, which line 331 replaces by 1, and a NaN for `m_tMin` itself,
whose conversion to `size_t` is undefined. -/
def HistAntiJitter.which (s : HistAntiJitter) (value : ℚ) : Option Nat :=
  if s.m_tSpan = 0 then
    if value - s.m_tMin < 0 then some (toSize (0 * ((usub s.m_histSize 1 : Nat) : ℚ)))
    else if value - s.m_tMin > 0 then some (toSize (1 * ((usub s.m_histSize 1 : Nat) : ℚ)))
    else none
  else
    let h := (value - s.m_tMin) / s.m_tSpan
    let h := if h < 0 then 0 else h
    let h := if h > 1 then 1 else h
    let h := h * ((usub s.m_histSize 1 : Nat) : ℚ)
    some (toSize h)

/-- The loop `while (acc <= m_margin) acc += m_histogram[hLow++];` from the state `(acc, hLow)`,
giving `hLow` at its exit. The first argument bounds the number of iterations; the loop is
entered with `m_histogram.size()` for it and `hLow = 0`, so that it is used up exactly when the
next read would be past the histogram. -/
def HistAntiJitter.scanLow (hist : List Nat) (margin : Nat) : Nat → Nat → Nat → Option Nat
  | 0, acc, hLow => if acc ≤ margin then none else some hLow
  | fuel + 1, acc, hLow =>
    if acc ≤ margin then
      match hist[hLow]? with
      | none => none
      | some c => scanLow hist margin fuel (uadd acc c) (uadd hLow 1)
    else some hLow

/-- The loop `while (acc <= m_margin) acc += m_histogram[hHigh--];` from the state
`(acc, hHigh)`, giving `hHigh` at its exit. The first argument bounds the number of iterations
as in `scanLow`: after `m_histogram.size()` reads `hHigh` has wrapped around. -/
def HistAntiJitter.scanHigh (hist : List Nat) (margin : Nat) : Nat → Nat → Nat → Option Nat
  | 0, acc, hHigh => if acc ≤ margin then none else some hHigh
  | fuel + 1, acc, hHigh =>
    if acc ≤ margin then
      match hist[hHigh]? with
      | none => none
      | some c => scanHigh hist margin fuel (uadd acc c) (usub hHigh 1)
    else some hHigh

/-- The histogram update of `HistAntiJitter::process` (lines 298 to 300):
`m_histogram[hLast]--; m_histogram[hCurrent]++;`. -/
def HistAntiJitter.update (hist : List Nat) (hLast hCurrent : Nat) : Option (List Nat) :=
  match hist[hLast]? with
  | none => none
  | some cLast =>
    let hist1 := hist.set hLast (usub cLast 1)
    match hist1[hCurrent]? with
    | none => none
    | some cCurrent => some (hist1.set hCurrent (uadd cCurrent 1))

/-- The value `hLow` of `HistAntiJitter::process` after line 307, for the histogram `hist`. -/
def HistAntiJitter.hLow (hist : List Nat) (margin : Nat) : Option Nat :=
  (HistAntiJitter.scanLow hist margin hist.length 0 0).map (fun h => usub h 1)

/-- The value `hHigh` of `HistAntiJitter::process` after line 312, for the histogram `hist`. -/
def HistAntiJitter.hHigh (hist : List Nat) (margin histSize : Nat) : Option Nat :=
  (HistAntiJitter.scanHigh hist margin hist.length 0 (usub histSize 1)).map
    (fun h => uadd h 1)

/-- The method `HistAntiJitter::process(input)` on the deque of `m_input`, returning the output
and the new members. -/
def HistAntiJitter.process (s : HistAntiJitter) (m_input : List ℚ) (input : ℚ) :
    Option (ℚ × HistAntiJitter) :=
  match m_input.getLast? with
  | none => none
  | some back =>
    match s.which back, s.which input with
    | some hLast, some hCurrent =>
      match HistAntiJitter.update s.m_histogram hLast hCurrent with
      | none => none
      | some hist =>
        match HistAntiJitter.hLow hist s.m_margin,
              HistAntiJitter.hHigh hist s.m_margin s.m_histSize with
        | some hLow, some hHigh =>
          let s1 := { s with m_histogram := hist }
          if hCurrent < hLow then
            (s1.what hLow).map (fun out => (out, { s1 with m_out := out }))
          else if hCurrent > hHigh then
            (s1.what (uadd hHigh 1)).map (fun out => (out, { s1 with m_out := out }))
          else some (input, { s1 with m_out := input })
        | _, _ => none
    | _, _ => none

/-! ## `ProcessChain<T>`: the propagation tree -/

/-- An object of a class derived from `ProcessChain<T>`: the members of the base class and,
in `obj`, those of the derived class. Pointers are positions in the heap. -/
structure ProcessChain (α : Type) where
  m_index : Nat
  m_parent : Option Nat
  m_child : Option Nat
  m_simbling : Option Nat
  obj : α
deriving DecidableEq, Repr

/-- The heap: the chain objects alive, by address. -/
abbrev Heap (α : Type) := List (ProcessChain α)

/-- The method `ProcessChain::setParent(parent)` of the object at `this`. -/
def ProcessChain.setParent {α : Type} (h : Heap α) (this : Nat) (parent : Option Nat) :
    Option (Heap α) :=
  match h[this]? with
  | none => none
  | some node =>
    (ASSERT (node.m_parent == none)).bind fun _ =>
    match parent with
    | none => some h
    | some p =>
      match h[p]? with
      | none => none
      | some pnode =>
        let m_simbling := pnode.m_child
        let index := match m_simbling with
          | none => some 0
          | some s => (h[s]?).map (fun n => uadd n.m_index 1)
        match index with
        | none => none
        | some m_index =>
          let h1 := h.set this
            { node with m_parent := some p, m_simbling := m_simbling, m_index := m_index }
          match h1[p]? with
          | none => none
          | some pnode1 => some (h1.set p { pnode1 with m_child := some this })

/-- The constructor `ProcessChain::ProcessChain(parent)` of a new object with the derived
members `obj`; the object is placed at the address `h.length`. -/
def ProcessChain.new {α : Type} (h : Heap α) (obj : α) (parent : Option Nat) :
    Option (Heap α) :=
  ProcessChain.setParent (h ++ [⟨0, none, none, none, obj⟩]) h.length parent

/-- The method `parent()`. -/
def ProcessChain.parent {α : Type} (h : Heap α) (this : Nat) : Option Nat :=
  (h[this]?).bind (fun n => n.m_parent)

/-- The method `first()`: the first child. -/
def ProcessChain.first {α : Type} (h : Heap α) (this : Nat) : Option Nat :=
  (h[this]?).bind (fun n => n.m_child)

/-- The method `next()`: the next sibling. -/
def ProcessChain.next {α : Type} (h : Heap α) (this : Nat) : Option Nat :=
  (h[this]?).bind (fun n => n.m_simbling)

/-- The method `index()`. -/
def ProcessChain.index {α : Type} (h : Heap α) (this : Nat) : Option Nat :=
  (h[this]?).map (fun n => n.m_index)

/-- The call `p->in(x)` guarded by `if (p != nullptr)`, for the method `rec` as `in`: the new
heap and the process calls made. -/
def ProcessChain.pushOpt {α T : Type}
    (rec : Heap α → Nat → T → Option (T × Heap α × List (Nat × T)))
    (h : Heap α) (p : Option Nat) (x : T) : Option (Heap α × List (Nat × T)) :=
  match p with
  | none => some (h, [])
  | some q => (rec h q x).map (fun r => r.2)

/-- The method `ProcessChain::in(input)` of the object at `this`, for the virtual method
`process` (given the heap, the object and the input it returns the output and the new heap).
Beside the output and the new heap it returns the list of the calls of `process` made, in
order, each with the object and the input it received. The first argument bounds the nesting
of the calls. -/
def ProcessChain.push {α T : Type} (process : Heap α → Nat → T → Option (T × Heap α)) :
    Nat → Heap α → Nat → T → Option (T × Heap α × List (Nat × T))
  | 0, _, _, _ => none
  | fuel + 1, h, this, input =>
    match process h this input with
    | none => none
    | some (output, h1) =>
      match ProcessChain.pushOpt (ProcessChain.push process fuel) h1
          (ProcessChain.next h1 this) input with
      | none => none
      | some (h2, calls2) =>
        match ProcessChain.pushOpt (ProcessChain.push process fuel) h2
            (ProcessChain.first h2 this) output with
        | none => none
        | some (h3, calls3) => some (output, h3, (this, input) :: (calls2 ++ calls3))

/-- The links of an object: `m_index`, `m_parent`, `m_child` and `m_simbling`. -/
def ProcessChain.links {α : Type} (n : ProcessChain α) :
    Nat × Option Nat × Option Nat × Option Nat :=
  (n.m_index, n.m_parent, n.m_child, n.m_simbling)

/-! ## The classes of the library as chain objects (value type `float`) -/

/-- The members that a class of the library adds to `ProcessChain<float>`. A member object
`m_input` is a chain object of its own, held by its address. -/
inductive Obj where
  | Buffer (deque : List ℚ)
  | NuBuffer (deque : List ℚ) (m_timeRef : Option Nat)
  | Filter (m_out : ℚ)
  | NuFilter (m_out : ℚ) (m_timeRef : Option Nat)
  | Comparator (m_out m_low m_high : ℚ)
  | HoldHigh (m_out : ℚ) (m_input : Nat)
  | HoldLow (m_out : ℚ) (m_input : Nat)
  | Limiter (m_out m_low m_high : ℚ)
  | MidAntiJitter (m_out : ℚ) (m_input : Nat) (m_tmpBuf : StdVector ℚ)
  | HistAntiJitter (s : HistAntiJitter) (m_input : Nat)
deriving DecidableEq, Repr

/-- The deque of the `Buffer` at the address `p`. -/
def Obj.deque (h : Heap Obj) (p : Nat) : Option (List ℚ) :=
  match h[p]? with
  | some ⟨_, _, _, _, Obj.Buffer d⟩ => some d
  | some ⟨_, _, _, _, Obj.NuBuffer d _⟩ => some d
  | _ => none

/-- The virtual method `out()` of the object at `this`. -/
def Obj.out (h : Heap Obj) (this : Nat) : Option ℚ :=
  match h[this]? with
  | none => none
  | some node =>
    match node.obj with
    | Obj.Buffer d => Buffer.out d
    | Obj.NuBuffer d _ => Buffer.out d
    | Obj.Filter m_out => some m_out
    | Obj.NuFilter m_out _ => some m_out
    | Obj.Comparator m_out _ _ => some m_out
    | Obj.HoldHigh m_out _ => some m_out
    | Obj.HoldLow m_out _ => some m_out
    | Obj.Limiter m_out _ _ => some m_out
    | Obj.MidAntiJitter m_out _ _ => some m_out
    | Obj.HistAntiJitter s _ => some s.m_out

/-- The virtual method `process(input)` of an object with the members `o`: the output and the
new members of the object. -/
def Obj.step (h : Heap Obj) (o : Obj) (input : ℚ) : Option (ℚ × Obj) :=
  match o with
  | Obj.Buffer d => (Buffer.process d input).map (fun r => (r.1, Obj.Buffer r.2))
  | Obj.NuBuffer d t => (Buffer.process d input).map (fun r => (r.1, Obj.NuBuffer r.2 t))
  | Obj.Filter _ => some (Filter.process input, Obj.Filter (Filter.process input))
  | Obj.NuFilter _ t => some (Filter.process input, Obj.NuFilter (Filter.process input) t)
  | Obj.Comparator m_out m_low m_high =>
    let out := Comparator.process Filter_T.float m_out m_low m_high input
    some (out, Obj.Comparator out m_low m_high)
  | Obj.HoldHigh _ m_input =>
    ((Obj.deque h m_input).bind (fun d => HoldHigh.process d input)).map
      (fun out => (out, Obj.HoldHigh out m_input))
  | Obj.HoldLow _ m_input =>
    ((Obj.deque h m_input).bind (fun d => HoldLow.process d input)).map
      (fun out => (out, Obj.HoldLow out m_input))
  | Obj.Limiter _ m_low m_high =>
    let out := Limiter.process m_low m_high input
    some (out, Obj.Limiter out m_low m_high)
  | Obj.MidAntiJitter _ m_input m_tmpBuf =>
    ((Obj.deque h m_input).bind (fun d => MidAntiJitter.process d m_tmpBuf input)).map
      (fun r => (r.1, Obj.MidAntiJitter r.1 m_input r.2))
  | Obj.HistAntiJitter s m_input =>
    ((Obj.deque h m_input).bind (fun d => HistAntiJitter.process s d input)).map
      (fun r => (r.1, Obj.HistAntiJitter r.2 m_input))

/-- The virtual method `process(input)` of the object at `this`, as a heap transformer: the
dispatch over the classes of the library. -/
def Obj.process (h : Heap Obj) (this : Nat) (input : ℚ) : Option (ℚ × Heap Obj) :=
  match h[this]? with
  | none => none
  | some node =>
    (Obj.step h node.obj input).map (fun r => (r.1, h.set this { node with obj := r.2 }))

/-- The method `in(input)` of an object of the library: `ProcessChain<T>::in`, which
`Buffer::in` and `Filter::in` call. -/
def Obj.push (fuel : Nat) (h : Heap Obj) (this : Nat) (input : ℚ) :
    Option (ℚ × Heap Obj × List (Nat × ℚ)) :=
  ProcessChain.push Obj.process fuel h this input

/-- The constructor `Buffer<float>(size, parent)`; the new object is at `h.length`. -/
def Buffer.create (h : Heap Obj) (size : Nat) (parent : Option Nat) : Option (Heap Obj) :=
  (ProcessChain.new h (Obj.Buffer (Buffer.new Buffer_T.float size)) parent).bind fun h1 =>
  (ASSERT (decide (size > 1))).map fun _ => h1

/-- The constructor `Filter<float>(parent)`; `m_out` starts as the trait zero. -/
def Filter.create (h : Heap Obj) (parent : Option Nat) : Option (Heap Obj) :=
  ProcessChain.new h (Obj.Filter Filter_T.float.zero) parent

/-- The constructor `Comparator<float>(initial, parent)`. -/
def Comparator.create (h : Heap Obj) (initial : ℚ) (parent : Option Nat) :
    Option (Heap Obj) :=
  ProcessChain.new h (Obj.Comparator initial Filter_T.float.zero Filter_T.float.zero) parent

/-- The constructor `Limiter<float>(parent)`. -/
def Limiter.create (h : Heap Obj) (parent : Option Nat) : Option (Heap Obj) :=
  ProcessChain.new h
    (Obj.Limiter Filter_T.float.zero Filter_T.float.zero Filter_T.float.unit) parent

/-- The constructor of a filter with a member `m_input`, as in `HoldHigh(size, parent)`:
the base `Filter<T>()` without parent, the member `m_input(size, parent)`, then
`ProcessChain<T>::setParent(&m_input)`. The filter is at `h.length`, `m_input` follows it. -/
def Filter.createWithInput (h : Heap Obj) (obj : Obj) (size : Nat) (parent : Option Nat) :
    Option (Heap Obj) :=
  (ProcessChain.new h obj none).bind fun h1 =>
  (Buffer.create h1 size parent).bind fun h2 =>
  ProcessChain.setParent h2 h.length (some (h.length + 1))

/-- The constructor `HoldHigh<float>(size, parent)`. -/
def HoldHigh.create (h : Heap Obj) (size : Nat) (parent : Option Nat) : Option (Heap Obj) :=
  Filter.createWithInput h (Obj.HoldHigh Filter_T.float.zero (h.length + 1)) size parent

/-- The constructor `HoldLow<float>(size, parent)`. -/
def HoldLow.create (h : Heap Obj) (size : Nat) (parent : Option Nat) : Option (Heap Obj) :=
  Filter.createWithInput h (Obj.HoldLow Filter_T.float.zero (h.length + 1)) size parent

/-- The constructor `MidAntiJitter<float>(size, parent)`; `m_tmpBuf` starts empty. -/
def MidAntiJitter.create (h : Heap Obj) (size : Nat) (parent : Option Nat) :
    Option (Heap Obj) :=
  Filter.createWithInput h
    (Obj.MidAntiJitter Filter_T.float.zero (h.length + 1) StdVector.empty) size parent

/-- The members of a `HistAntiJitter` after its initialiser list and before the body of the
constructor. -/
def HistAntiJitter.init (size histSize : Nat) (tMin tMax margin : ℚ) : HistAntiJitter where
  m_out := Filter_T.float.zero
  m_histSize := histSize
  m_margin := toSize ((size : ℚ) * margin)
  m_tMin := tMin
  m_tMax := tMax
  m_tSpan := tMax - tMin
  m_histogram := List.replicate histSize 0

/-- The members of a `HistAntiJitter` after the constructor, whose body ends with
`m_histogram[which(0)] = size`. -/
def HistAntiJitter.new (size histSize : Nat) (tMin tMax margin : ℚ) : Option HistAntiJitter :=
  let s := HistAntiJitter.init size histSize tMin tMax margin
  match s.which 0 with
  | none => none
  | some i =>
    if i < s.m_histogram.length then some { s with m_histogram := s.m_histogram.set i size }
    else none

/-- The constructor `HistAntiJitter(size, histSize, tMin, tMax, margin, parent)`. -/
def HistAntiJitter.create (h : Heap Obj) (size histSize : Nat) (tMin tMax margin : ℚ)
    (parent : Option Nat) : Option (Heap Obj) :=
  (Filter.createWithInput h
    (Obj.HistAntiJitter (HistAntiJitter.init size histSize tMin tMax margin) (h.length + 1))
    size parent).bind fun h1 =>
  match HistAntiJitter.new size histSize tMin tMax margin, h1[h.length]? with
  | some s, some node => some (h1.set h.length { node with obj := Obj.HistAntiJitter s (h.length + 1) })
  | _, _ => none

/-! ## Scenarios and auxiliary notions of the properties -/

/-- The shape of a heap: the links of its objects. -/
def ProcessChain.shape {α : Type} (h : Heap α) :
    List (Nat × Option Nat × Option Nat × Option Nat) :=
  h.map ProcessChain.links

/-- Whether the link `p` of the object `n` leads to an object of the heap of smaller rank. -/
def ProcessChain.linkOk (len : Nat) (rank : Nat → Nat) (n : Nat) (p : Option Nat) : Bool :=
  match p with
  | none => true
  | some q => decide (q < len) && decide (rank q < rank n)

/-- Whether `rank` decreases along every next-sibling and first-child link of the heap: the
heap is then a forest, and a traversal from an object `n` nests at most `rank n + 1` calls. -/
def ProcessChain.ranked {α : Type} (h : Heap α) (rank : Nat → Nat) : Bool :=
  (List.range h.length).all fun n =>
    ProcessChain.linkOk h.length rank n (ProcessChain.next h n)
      && ProcessChain.linkOk h.length rank n (ProcessChain.first h n)

/-- The tree of the fan-out scenario, built on the heap `h`: a root with the members `root`
(at `h.length`), its children `A` (at `h.length + 1`) and `B` (at `h.length + 2`) attached in
that order, and `C` (at `h.length + 3`) attached to `A`. -/
def ProcessChain.fanout {α : Type} (h : Heap α) (root A B C : α) : Option (Heap α) :=
  (ProcessChain.new h root none).bind fun h1 =>
  (ProcessChain.new h1 A (some h.length)).bind fun h2 =>
  (ProcessChain.new h2 B (some h.length)).bind fun h3 =>
  ProcessChain.new h3 C (some (h.length + 1))

/-- Whether the method `process` of an object with the members `o` neither reads another object
nor can fail. -/
def Obj.simple (o : Obj) : Bool :=
  match o with
  | Obj.Buffer d => !d.isEmpty
  | Obj.NuBuffer d _ => !d.isEmpty
  | Obj.Filter _ => true
  | Obj.NuFilter _ _ => true
  | Obj.Comparator _ _ _ => true
  | Obj.Limiter _ _ _ => true
  | _ => false

/-- Whether all objects of the heap are `simple`. -/
def Obj.allSimple (h : Heap Obj) : Bool := h.all (fun n => n.obj.simple)

/-- The tree of the fan-out scenario with a `Limiter` (limits 0 and 1) as root at address 0 and
the buffers `A`, `B`, `C` of capacity 2 at the addresses 1, 2, 3. -/
def Obj.fanoutLimiter : Heap Obj :=
  ((Limiter.create [] none).bind fun h1 =>
   (Buffer.create h1 2 (some 0)).bind fun h2 =>
   (Buffer.create h2 2 (some 0)).bind fun h3 =>
   Buffer.create h3 2 (some 1)).getD []

/-- A rank for `Obj.fanoutLimiter`. -/
def Obj.fanoutRank (n : Nat) : Nat := [3, 1, 2, 0].getD n 0

/-- The pushes `root << x1 << x2 << ...`: the heap after them. -/
def Obj.pushAll (fuel : Nat) (h : Heap Obj) (root : Nat) : List ℚ → Option (Heap Obj)
  | [] => some h
  | x :: xs => (Obj.push fuel h root x).bind fun r => Obj.pushAll fuel r.2.1 root xs

/-- The calls `process(x1); process(x2); ...` of a `Buffer` on its deque: the deque after
them. -/
def Buffer.processAll {T : Type} (d : List T) : List T → Option (List T)
  | [] => some d
  | x :: xs => (Buffer.process d x).bind fun r => Buffer.processAll r.2 xs

/-- The window of the sampling test of `tst_basic.cpp`, after `b1 << 3 << 1 << 4 << 1 << 5 << 9
<< 2 << 6`. -/
def Buffer.sampleDemo : List ℤ := [6, 2, 9, 5, 1, 4, 1, 3]

/-- A root `Filter` at address 0 and a `MidAntiJitter` of window size 5 below it: the filter
at address 1, its `m_input` at address 2. -/
def Obj.midDemo : Heap Obj :=
  ((Filter.create [] none).bind fun h => MidAntiJitter.create h 5 (some 0)).getD []

/-- A time reference of 16 entries, strictly decreasing by position: the times 0, 1, ..., 15
pushed in this order. -/
def NuBuffer.timeDemo : List ℚ := [15, 14, 13, 12, 11, 10, 9, 8, 7, 6, 5, 4, 3, 2, 1, 0]

/-- The members of `HistAntiJitter(4, 5, -2, 2, 0.25)` when constructed: margin 1, the four
counts in bucket 2, the bucket of 0. -/
def HistAntiJitter.freshDemo : HistAntiJitter := ⟨0, 5, 1, -2, 2, 4, [0, 0, 4, 0, 0]⟩

/-- The method `Comparator::setThreshold(low, high)` of the object at `this`. -/
def Comparator.setThreshold (h : Heap Obj) (this : Nat) (low high : ℚ) : Option (Heap Obj) :=
  match h[this]? with
  | none => none
  | some node =>
    match node.obj with
    | Obj.Comparator m_out _ _ =>
      some (h.set this { node with obj := Obj.Comparator m_out low high })
    | _ => none

/-- The method `Comparator::setThreshold(threshold)`: both thresholds are set to it. -/
def Comparator.setThresholdSingle (h : Heap Obj) (this : Nat) (threshold : ℚ) :
    Option (Heap Obj) :=
  match h[this]? with
  | none => none
  | some node =>
    match node.obj with
    | Obj.Comparator m_out _ _ =>
      some (h.set this { node with obj := Obj.Comparator m_out threshold threshold })
    | _ => none

/-- The method `Limiter::setLimit(low, high)` of the object at `this`. -/
def Limiter.setLimit (h : Heap Obj) (this : Nat) (low high : ℚ) : Option (Heap Obj) :=
  match h[this]? with
  | none => none
  | some node =>
    match node.obj with
    | Obj.Limiter m_out _ _ => some (h.set this { node with obj := Obj.Limiter m_out low high })
    | _ => none

/-- The method `NuBuffer::setTimeRef(timeRef)` of the object at `this`. The two `ASSERT`s
evaluate `timeRef != nullptr` and `timeRef->size() >= size()`; the second dereferences
`timeRef`. -/
def NuBuffer.setTimeRef (h : Heap Obj) (this : Nat) (timeRef : Option Nat) :
    Option (Heap Obj) :=
  match h[this]? with
  | none => none
  | some node =>
    match node.obj with
    | Obj.NuBuffer d _ =>
      (ASSERT (timeRef != none)).bind fun _ =>
      match timeRef with
      | none => none
      | some t =>
        match Obj.deque h t with
        | none => none
        | some td =>
          (ASSERT (decide (td.length ≥ d.length))).bind fun _ =>
          some (h.set this { node with obj := Obj.NuBuffer d (some t) })
    | _ => none

/-- The constructor `NuBuffer<float>(size, timeRef, parent)`: the base `Buffer<T>(size, parent)`,
`ASSERT(size > 1)`, then `setTimeRef(timeRef)`. The new object is at `h.length`. -/
def NuBuffer.create (h : Heap Obj) (size : Nat) (timeRef : Option Nat) (parent : Option Nat) :
    Option (Heap Obj) :=
  (ProcessChain.new h (Obj.NuBuffer (Buffer.new Buffer_T.float size) none) parent).bind fun h1 =>
  (ASSERT (decide (size > 1))).bind fun _ =>
  (ASSERT (decide (size > 1))).bind fun _ =>
  NuBuffer.setTimeRef h1 h.length timeRef

/-- The method `NuBuffer::setParent(parent)` of the object at `this`, for a parent that is a
`NuBuffer`: `ProcessChain<T>::setParent(parent)`, then `m_timeRef = parent->m_timeRef` when
`parent` is not null. -/
def NuBuffer.setParent (h : Heap Obj) (this : Nat) (parent : Option Nat) : Option (Heap Obj) :=
  (ProcessChain.setParent h this parent).bind fun h1 =>
  match parent with
  | none => some h1
  | some p =>
    match h1[p]?, h1[this]? with
    | some ⟨_, _, _, _, Obj.NuBuffer _ t⟩, some node =>
      match node.obj with
      | Obj.NuBuffer d _ => some (h1.set this { node with obj := Obj.NuBuffer d t })
      | _ => none
    | _, _ => none

/-- Whether the object at `this` is a `NuBuffer` bound to a time reference whose capacity is at
least its own: the invariant `timeRef.capacity >= capacity`. -/
def NuBuffer.timeRefOk (h : Heap Obj) (this : Nat) : Bool :=
  match h[this]? with
  | some ⟨_, _, _, _, Obj.NuBuffer d (some t)⟩ =>
    match Obj.deque h t with
    | some td => decide (d.length ≤ td.length)
    | none => false
  | _ => false

/-- The calls `c.setParent(p)` for the objects `c` of the list, in order. -/
def ProcessChain.attachAll {α : Type} (h : Heap α) (p : Nat) : List Nat → Option (Heap α)
  | [] => some h
  | c :: cs => (ProcessChain.setParent h c (some p)).bind fun h1 => ProcessChain.attachAll h1 p cs

/-- The objects met by following `next()` from `start` until it is null; the first argument
bounds their number, and the result is `none` when it is exceeded. -/
def ProcessChain.siblings {α : Type} (h : Heap α) : Nat → Option Nat → Option (List Nat)
  | _, none => some []
  | 0, some _ => none
  | fuel + 1, some c => (ProcessChain.siblings h fuel (ProcessChain.next h c)).map (fun l => c :: l)

/-- The outputs of the calls `process(x1); process(x2); ...` of an object with the members `o`
that reads no other object, and its members after them. -/
def Obj.run (o : Obj) : List ℚ → Option (List ℚ × Obj)
  | [] => some ([], o)
  | x :: xs => (Obj.step [] o x).bind fun r => (Obj.run r.2 xs).map fun q => (r.1 :: q.1, q.2)

/-- The values of `out()` of the object at `this` after each of the pushes
`root << x1 << x2 << ...`. -/
def Obj.outputs (fuel : Nat) (h : Heap Obj) (root this : Nat) : List ℚ → Option (List ℚ)
  | [] => some []
  | x :: xs =>
    (Obj.push fuel h root x).bind fun r =>
    (Obj.out r.2.1 this).bind fun y =>
    (Obj.outputs fuel r.2.1 root this xs).map fun l => y :: l

/-- The number of values of the window in each bucket of the histogram. -/
def HistAntiJitter.counts (s : HistAntiJitter) (window : List ℚ) : List Nat :=
  (List.range s.m_histSize).map fun b => (window.filter fun v => s.which v == some b).length

/-- A root `Filter` at address 0 and a `HistAntiJitter(20, 11, 0, 10, 0.1)` below it: the
filter at address 1, its `m_input` at address 2. -/
def Obj.histDemo : Heap Obj :=
  ((Filter.create [] none).bind fun h =>
    HistAntiJitter.create h 20 11 0 10 (1 / 10) (some 0)).getD []

/-- A root `Filter` at address 0 and a `HistAntiJitter(4, 5, -2, 2, 0.25)` below it: the filter
at address 1, its `m_input` at address 2. -/
def Obj.histSmallDemo : Heap Obj :=
  ((Filter.create [] none).bind fun h =>
    HistAntiJitter.create h 4 5 (-2) 2 (1 / 4) (some 0)).getD []

/-- The heap of a filter with a member `m_input` under a root parent: the parent with the
members `o` at address 0, the filter with the members `f` at address 1, and its `m_input` with
the deque `d` at address 2. -/
def Obj.holdHeap (o f : Obj) (d : List ℚ) : Heap Obj :=
  [⟨0, none, some 2, none, o⟩, ⟨0, some 2, none, none, f⟩, ⟨0, some 0, some 1, none, Obj.Buffer d⟩]

/-- The state of the heap after the objects `done` were attached to `p`, in this order. -/
def ProcessChain.AttachedTo {α : Type} (h : Heap α) (p : Nat) (done : List Nat) : Prop :=
  (∃ pn, h[p]? = some pn ∧ pn.m_child = done.getLast?) ∧
  ∀ i c, done[i]? = some c → ∃ nd : ProcessChain α, h[c]? = some nd ∧
    nd.m_parent = some p ∧ nd.m_index = i ∧
    nd.m_simbling = (match i with
      | 0 => none
      | k + 1 => done[k]?)

/-- Five objects without parent, at the addresses 0 to 4. -/
def ProcessChain.attachDemo : Heap Obj := List.replicate 5 ⟨0, none, none, none, Obj.Filter 0⟩

/-- The objects of `attachDemo` after the objects 2 and 3 were attached to 1, then 4 to 0. -/
def ProcessChain.reattachDemo : Heap Obj :=
  ((ProcessChain.attachAll ProcessChain.attachDemo 1 [2, 3]).bind fun h =>
    ProcessChain.setParent h 4 (some 0)).getD []

/-- Two time references and two `NuBuffer`s as constructed by `Buffer<time_t> t2(2), t8(8);
NuBuffer<float> a(2, &t2), b(8, &t8);`, at the addresses 0, 1, 2, 3. -/
def NuBuffer.refDemo : Heap Obj :=
  ((Buffer.create [] 2 none).bind fun h => (Buffer.create h 8 none).bind fun h =>
    (NuBuffer.create h 2 (some 0) none).bind fun h => NuBuffer.create h 8 (some 1) none).getD []

/-- The heap of a filter with a member `m_input` that is constructed without parent: the filter
with the members `f` at address 0, and its `m_input` with the deque `d` at address 1. -/
def Obj.directHeap (f : Obj) (d : List ℚ) : Heap Obj :=
  [⟨0, some 1, none, none, f⟩, ⟨0, none, some 0, none, Obj.Buffer d⟩]

open ProcessChain

/-! ## Lemmas on heaps and traversals -/

theorem shape_length {α : Type} {h h' : Heap α} (e : shape h' = shape h) :
    h'.length = h.length := by
  have := congrArg List.length e
  simpa [shape] using this

theorem next_of_shape {α : Type} {h h' : Heap α} (e : shape h' = shape h) (n : Nat) :
    next h' n = next h n := by
  have := congrArg (fun l => l[n]?) e
  simp only [shape, List.getElem?_map] at this
  unfold next
  cases h1 : h'[n]? <;> cases h2 : h[n]? <;> simp_all [links]

theorem first_of_shape {α : Type} {h h' : Heap α} (e : shape h' = shape h) (n : Nat) :
    first h' n = first h n := by
  have := congrArg (fun l => l[n]?) e
  simp only [shape, List.getElem?_map] at this
  unfold first
  cases h1 : h'[n]? <;> cases h2 : h[n]? <;> simp_all [links]

theorem ranked_of_shape {α : Type} {h h' : Heap α} (e : shape h' = shape h)
    (rank : Nat → Nat) : ranked h' rank = ranked h rank := by
  unfold ranked
  rw [shape_length e]
  congr 1
  funext n
  rw [next_of_shape e, first_of_shape e]

theorem ranked_next {α : Type} {h : Heap α} {rank : Nat → Nat} (hr : ranked h rank = true)
    {n q : Nat} (hq : next h n = some q) : q < h.length ∧ rank q < rank n := by
  have hn : n < h.length := by
    by_contra hc
    have : h[n]? = none := List.getElem?_eq_none (by omega)
    simp [next, this] at hq
  have := (List.all_eq_true.mp hr) n (List.mem_range.mpr hn)
  simp [linkOk, hq] at this
  exact this.1

theorem ranked_first {α : Type} {h : Heap α} {rank : Nat → Nat} (hr : ranked h rank = true)
    {n q : Nat} (hq : first h n = some q) : q < h.length ∧ rank q < rank n := by
  have hn : n < h.length := by
    by_contra hc
    have : h[n]? = none := List.getElem?_eq_none (by omega)
    simp [first, this] at hq
  have := (List.all_eq_true.mp hr) n (List.mem_range.mpr hn)
  simp [linkOk, hq] at this
  exact this.2

theorem pushOpt_total {α T : Type} (I : Heap α → Prop) (h0 : Heap α) (rank : Nat → Nat)
    (fuel : Nat) (rec : Heap α → Nat → T → Option (T × Heap α × List (Nat × T)))
    (hrec : ∀ h n x, I h → shape h = shape h0 → n < h.length → rank n < fuel →
      ∃ y h' c, rec h n x = some (y, h', c) ∧ I h' ∧ shape h' = shape h0)
    (h : Heap α) (p : Option Nat) (x : T) (hh : I h) (hs : shape h = shape h0)
    (hp : ∀ q, p = some q → q < h.length ∧ rank q < fuel) :
    ∃ h' c, pushOpt rec h p x = some (h', c) ∧ I h' ∧ shape h' = shape h0 := by
  cases p with
  | none => exact ⟨h, [], rfl, hh, hs⟩
  | some q =>
    obtain ⟨hq1, hq2⟩ := hp q rfl
    obtain ⟨y, h', c, e, hI', hs'⟩ := hrec h q x hh hs hq1 hq2
    exact ⟨h', c, by simp [pushOpt, e], hI', hs'⟩

theorem push_total {α T : Type} (process : Heap α → Nat → T → Option (T × Heap α))
    (I : Heap α → Prop)
    (hI : ∀ h n x, I h → n < h.length →
      ∃ y h', process h n x = some (y, h') ∧ I h' ∧ shape h' = shape h)
    (h0 : Heap α) (rank : Nat → Nat) (hr : ranked h0 rank = true) :
    ∀ fuel h n x, I h → shape h = shape h0 → n < h.length → rank n < fuel →
      ∃ y h' c, push process fuel h n x = some (y, h', c) ∧ I h' ∧ shape h' = shape h0 := by
  intro fuel
  induction fuel with
  | zero => intro h n x _ _ _ hf; omega
  | succ fuel ih =>
    intro h n x hh hs hn hf
    obtain ⟨y, h1, hp, hI1, hs1⟩ := hI h n x hh hn
    have hs1' : shape h1 = shape h0 := hs1.trans hs
    have hr1 : ranked h1 rank = true := by rw [ranked_of_shape hs1', hr]
    obtain ⟨h2, c2, e2, hI2, hs2⟩ := pushOpt_total I h0 rank fuel (push process fuel) ih h1
      (next h1 n) x hI1 hs1' (fun q hq => by
        have := ranked_next hr1 hq
        exact ⟨this.1, by omega⟩)
    have hr2 : ranked h2 rank = true := by rw [ranked_of_shape hs2, hr]
    obtain ⟨h3, c3, e3, hI3, hs3⟩ := pushOpt_total I h0 rank fuel (push process fuel) ih h2
      (first h2 n) y hI2 hs2 (fun q hq => by
        have := ranked_first hr2 hq
        exact ⟨this.1, by omega⟩)
    exact ⟨y, h3, (n, x) :: (c2 ++ c3), by simp [push, hp, e2, e3], hI3, hs3⟩

theorem new_root {α : Type} (h : Heap α) (obj : α) :
    ProcessChain.new h obj none = some (h ++ [⟨0, none, none, none, obj⟩]) := by
  simp [ProcessChain.new, setParent, ASSERT]

theorem new_child {α : Type} (h : Heap α) (obj : α) (p : Nat) (pnode : ProcessChain α)
    (hp : h[p]? = some pnode) (idx : Nat)
    (hidx : (match pnode.m_child with
      | none => some 0
      | some s => (h[s]?).map (fun n => uadd n.m_index 1)) = some idx) :
    ProcessChain.new h obj (some p)
      = some (h.set p { pnode with m_child := some h.length }
          ++ [⟨idx, some p, none, pnode.m_child, obj⟩]) := by
  have hpl : p < h.length := by
    by_contra hc
    rw [List.getElem?_eq_none (by omega)] at hp
    cases hp
  have e1 : (h ++ [(⟨0, none, none, none, obj⟩ : ProcessChain α)])[p]? = some pnode := by
    rw [List.getElem?_append_left hpl, hp]
  have e2 : (match pnode.m_child with
      | none => some 0
      | some s => ((h ++ [(⟨0, none, none, none, obj⟩ : ProcessChain α)])[s]?).map
          (fun n => uadd n.m_index 1)) = some idx := by
    rw [← hidx]
    cases hc : pnode.m_child with
    | none => rfl
    | some s =>
      simp only
      by_cases hs : s < h.length
      · rw [List.getElem?_append_left hs]
      · have hn : h[s]? = none := List.getElem?_eq_none (by omega)
        rw [hc] at hidx
        simp [hn] at hidx
  simp only [ProcessChain.new, setParent, ASSERT, Option.bind, List.getElem?_concat_length, e1, e2]
  have e3 : (h ++ [(⟨0, none, none, none, obj⟩ : ProcessChain α)]).set h.length
      ⟨idx, some p, none, pnode.m_child, obj⟩ = h ++ [⟨idx, some p, none, pnode.m_child, obj⟩] := by
    simp [List.set_append]
  rw [e3]
  rw [List.getElem?_append_left hpl, hp]
  simp [List.set_append, hpl]

theorem getElem?_append_add {α : Type} (h0 l : List α) (k : Nat) :
    (h0 ++ l)[h0.length + k]? = l[k]? := by
  rw [List.getElem?_append_right (by omega)]
  congr 1
  omega

theorem set_append_add {α : Type} (h0 l : List α) (k : Nat) (x : α) :
    (h0 ++ l).set (h0.length + k) x = h0 ++ l.set k x := by
  rw [List.set_append]
  simp

theorem fanout_eq {α : Type} (h0 : Heap α) (r a b c : α) :
    fanout h0 r a b c = some (h0 ++
      [⟨0, none, some (h0.length + 2), none, r⟩,
       ⟨0, some h0.length, some (h0.length + 3), none, a⟩,
       ⟨1, some h0.length, none, some (h0.length + 1), b⟩,
       ⟨0, some (h0.length + 1), none, none, c⟩]) := by
  have g0 : ∀ l : List (ProcessChain α), (h0 ++ l)[h0.length]? = l[0]? :=
    fun l => getElem?_append_add h0 l 0
  have s0 : ∀ (l : List (ProcessChain α)) x, (h0 ++ l).set h0.length x = h0 ++ l.set 0 x :=
    fun l x => set_append_add h0 l 0 x
  have e2 : ProcessChain.new (h0 ++ [(⟨0, none, none, none, r⟩ : ProcessChain α)]) a
      (some h0.length) = some (h0 ++ [⟨0, none, some (h0.length + 1), none, r⟩,
        ⟨0, some h0.length, none, none, a⟩]) := by
    rw [new_child _ a h0.length ⟨0, none, none, none, r⟩ (by rw [g0]; rfl) 0 rfl, s0]
    simp
  have e3 : ProcessChain.new (h0 ++ [(⟨0, none, some (h0.length + 1), none, r⟩ : ProcessChain α),
        ⟨0, some h0.length, none, none, a⟩]) b (some h0.length)
      = some (h0 ++ [⟨0, none, some (h0.length + 2), none, r⟩,
        ⟨0, some h0.length, none, none, a⟩,
        ⟨1, some h0.length, none, some (h0.length + 1), b⟩]) := by
    rw [new_child _ b h0.length ⟨0, none, some (h0.length + 1), none, r⟩ (by rw [g0]; rfl)
      1 (by
        show Option.map _ _ = _
        rw [getElem?_append_add]
        rfl), s0]
    simp
  have e4 : ProcessChain.new (h0 ++ [(⟨0, none, some (h0.length + 2), none, r⟩ : ProcessChain α),
        ⟨0, some h0.length, none, none, a⟩,
        ⟨1, some h0.length, none, some (h0.length + 1), b⟩]) c (some (h0.length + 1))
      = some (h0 ++ [⟨0, none, some (h0.length + 2), none, r⟩,
        ⟨0, some h0.length, some (h0.length + 3), none, a⟩,
        ⟨1, some h0.length, none, some (h0.length + 1), b⟩,
        ⟨0, some (h0.length + 1), none, none, c⟩]) := by
    rw [new_child _ c (h0.length + 1) ⟨0, some h0.length, none, none, a⟩
      (by rw [getElem?_append_add]; rfl) 0 rfl, set_append_add]
    simp
  unfold fanout
  rw [new_root]
  simp only [Option.bind, e2, e3, e4]

theorem shape_set_obj {α : Type} (h : Heap α) (n : Nat) (node : ProcessChain α)
    (hn : h[n]? = some node) (o : α) :
    shape (h.set n { node with obj := o }) = shape h := by
  apply List.ext_getElem?
  intro i
  simp only [shape, List.getElem?_map, List.getElem?_set]
  by_cases e : n = i
  · subst e
    have hl : n < h.length := by
      by_contra hc
      rw [List.getElem?_eq_none (by omega)] at hn
      cases hn
    simp [hl, hn, links]
  · simp [e]

theorem Obj.process_simple (h : Heap Obj) (n : Nat) (x : ℚ) (hh : Obj.allSimple h = true)
    (hn : n < h.length) :
    ∃ y h', Obj.process h n x = some (y, h') ∧ Obj.allSimple h' = true ∧ shape h' = shape h := by
  have hg : h[n]? = some h[n] := List.getElem?_eq_getElem hn
  have hs : (h[n]).obj.simple = true := by
    have := List.all_eq_true.mp hh h[n] (List.getElem_mem hn)
    simpa using this
  have key : ∃ y o, Obj.step h (h[n]).obj x = some (y, o) ∧ o.simple = true := by
    cases ho : (h[n]).obj <;> rw [ho] at hs <;> simp [Obj.simple] at hs
    case Buffer d =>
      cases d with
      | nil => simp at hs
      | cons a t => exact ⟨x, Obj.Buffer (x :: (a :: t).dropLast), rfl, rfl⟩
    case NuBuffer d t =>
      cases d with
      | nil => simp at hs
      | cons a t => exact ⟨x, Obj.NuBuffer (x :: (a :: t).dropLast) _, rfl, rfl⟩
    all_goals exact ⟨_, _, rfl, rfl⟩
  obtain ⟨y, o, e, hso⟩ := key
  refine ⟨y, h.set n { h[n] with obj := o }, by simp [Obj.process, hg, e], ?_,
    shape_set_obj h n h[n] hg o⟩
  apply List.all_eq_true.mpr
  intro node hm
  rcases List.mem_or_eq_of_mem_set hm with hm | rfl
  · simpa using List.all_eq_true.mp hh node hm
  · simpa using hso

/-! ## C1, C2: the propagation order -/

/-- C1: in a propagation tree (a heap whose next-sibling and first-child links decrease a rank)
whose `process` methods return and leave the links alone, `in` (push) of a node `n` with the
input `x` computes `y = process(x)`, then pushes the original `x` into the next sibling of `n`
if there is one, then pushes `y` into the first child of `n` if there is one, and returns `y`;
the calls of `process` are made in the order: `n` itself, the whole traversal of the next
sibling, the whole traversal of the first child. Any bound above `rank n` on the nesting of the
calls is enough. -/
theorem push_order {α T : Type} (process : Heap α → Nat → T → Option (T × Heap α))
    (I : Heap α → Prop)
    (hI : ∀ h n x, I h → n < h.length →
      ∃ y h', process h n x = some (y, h') ∧ I h' ∧ shape h' = shape h)
    (h : Heap α) (rank : Nat → Nat) (hr : ranked h rank = true) (hh : I h)
    (n : Nat) (hn : n < h.length) (x : T) (fuel : Nat) (hf : rank n < fuel) :
    ∃ y h1 h2 h3 calls2 calls3,
      process h n x = some (y, h1) ∧
      pushOpt (push process (fuel - 1)) h1 (next h n) x = some (h2, calls2) ∧
      pushOpt (push process (fuel - 1)) h2 (first h n) y = some (h3, calls3) ∧
      push process fuel h n x = some (y, h3, (n, x) :: (calls2 ++ calls3)) := by
  obtain ⟨fuel, rfl⟩ : ∃ k, fuel = k + 1 := ⟨fuel - 1, by omega⟩
  obtain ⟨y, h1, hp, hI1, hs1⟩ := hI h n x hh hn
  have hr1 : ranked h1 rank = true := by rw [ranked_of_shape hs1, hr]
  have ih := push_total process I hI h rank hr fuel
  obtain ⟨h2, c2, e2, hI2, hs2⟩ := pushOpt_total I h rank fuel (push process fuel) ih h1
    (next h1 n) x hI1 hs1 (fun q hq => by
      have := ranked_next hr1 hq
      exact ⟨this.1, by omega⟩)
  have hr2 : ranked h2 rank = true := by rw [ranked_of_shape hs2, hr]
  obtain ⟨h3, c3, e3, hI3, hs3⟩ := pushOpt_total I h rank fuel (push process fuel) ih h2
    (first h2 n) y hI2 hs2 (fun q hq => by
      have := ranked_first hr2 hq
      exact ⟨this.1, by omega⟩)
  refine ⟨y, h1, h2, h3, c2, c3, hp, ?_, ?_, ?_⟩
  · rw [← next_of_shape hs1]; simpa using e2
  · rw [← first_of_shape hs2]; simpa using e3
  · simp [push, hp, e2, e3]

/-- C1 (witness): the tree of a `Limiter` with the children `A`, `B` and the grandchild `C`. -/
theorem push_order_witness :
    ranked Obj.fanoutLimiter Obj.fanoutRank = true ∧ Obj.allSimple Obj.fanoutLimiter = true ∧
    ∃ y h1 h2 h3 calls2 calls3,
      Obj.process Obj.fanoutLimiter 0 5 = some (y, h1) ∧
      pushOpt (push Obj.process (4 - 1)) h1 (next Obj.fanoutLimiter 0) 5 = some (h2, calls2) ∧
      pushOpt (push Obj.process (4 - 1)) h2 (first Obj.fanoutLimiter 0) y = some (h3, calls3) ∧
      push Obj.process 4 Obj.fanoutLimiter 0 5 = some (y, h3, (0, 5) :: (calls2 ++ calls3)) :=
  ⟨by decide, by decide,
    push_order Obj.process (fun h => Obj.allSimple h = true)
      (fun h n x hh hn => Obj.process_simple h n x hh hn)
      Obj.fanoutLimiter Obj.fanoutRank (by decide) (by decide) 0 (by decide) 5 4 (by decide)⟩

/-- C2 (counterexample): with a `Limiter` of limits 0 and 1 as root, pushing 5 into the root
gives `r = 1`, and the `process` of `B` (address 2) and of `A` (address 1) receive 1, not the
pushed value 5. -/
theorem fanout_children_receive_output :
    fanout [] (Obj.Limiter 0 0 1) (Obj.Buffer [0, 0]) (Obj.Buffer [0, 0]) (Obj.Buffer [0, 0])
      = some Obj.fanoutLimiter ∧
    (Obj.push 4 Obj.fanoutLimiter 0 5).map (fun r => (r.1, r.2.2))
      = some (1, [(0, 5), (2, 1), (1, 1), (3, 1)]) := by
  decide

/-- C2 (amended): for a root of any kind with the children `A` then `B` attached in that order
and `C` attached to `A`, pushing `v` into the root, with `r = root.process(v)`, makes the
`process` of `B` and then that of `A` receive `r`, the output of the root (which is `v` only
when the root returns its input, as a `Buffer` does), and makes the `process` of `C` receive
the output `a` of `A`. -/
theorem fanout_push {α T : Type} (process : Heap α → Nat → T → Option (T × Heap α))
    (I : Heap α → Prop)
    (hI : ∀ h n x, I h → n < h.length →
      ∃ y h', process h n x = some (y, h') ∧ I h' ∧ shape h' = shape h)
    (h0 : Heap α) (root A B C : α) (h4 : Heap α) (hc : fanout h0 root A B C = some h4)
    (hh : I h4) (v : T) :
    ∃ r b a c h5 h6 h7 h8,
      process h4 h0.length v = some (r, h5) ∧
      process h5 (h0.length + 2) r = some (b, h6) ∧
      process h6 (h0.length + 1) r = some (a, h7) ∧
      process h7 (h0.length + 3) a = some (c, h8) ∧
      push process 4 h4 h0.length v = some (r, h8,
        [(h0.length, v), (h0.length + 2, r), (h0.length + 1, r), (h0.length + 3, a)]) := by
  rw [fanout_eq] at hc
  injection hc with hc
  have hlen : h4.length = h0.length + 4 := by rw [← hc]; simp
  have g : ∀ k, h4[h0.length + k]? = ([⟨0, none, some (h0.length + 2), none, root⟩,
       ⟨0, some h0.length, some (h0.length + 3), none, A⟩,
       ⟨1, some h0.length, none, some (h0.length + 1), B⟩,
       ⟨0, some (h0.length + 1), none, none, C⟩] : List (ProcessChain α))[k]? := by
    intro k; rw [← hc, getElem?_append_add]
  have nR : next h4 h0.length = none := by
    have := g 0
    simp only [Nat.add_zero] at this
    simp [next, this]
  have fR : first h4 h0.length = some (h0.length + 2) := by
    have := g 0
    simp only [Nat.add_zero] at this
    simp [first, this]
  have nA : next h4 (h0.length + 1) = none := by simp [next, g 1]
  have fA : first h4 (h0.length + 1) = some (h0.length + 3) := by simp [first, g 1]
  have nB : next h4 (h0.length + 2) = some (h0.length + 1) := by simp [next, g 2]
  have fB : first h4 (h0.length + 2) = none := by simp [first, g 2]
  have nC : next h4 (h0.length + 3) = none := by simp [next, g 3]
  have fC : first h4 (h0.length + 3) = none := by simp [first, g 3]
  obtain ⟨r, h5, p5, I5, s5⟩ := hI h4 h0.length v hh (by omega)
  have l5 := shape_length s5
  obtain ⟨b, h6, p6, I6, s6⟩ := hI h5 (h0.length + 2) r I5 (by omega)
  have s6 := s6.trans s5
  have l6 := shape_length s6
  obtain ⟨a, h7, p7, I7, s7⟩ := hI h6 (h0.length + 1) r I6 (by omega)
  have s7 := s7.trans s6
  have l7 := shape_length s7
  obtain ⟨c, h8, p8, I8, s8⟩ := hI h7 (h0.length + 3) a I7 (by omega)
  have s8 := s8.trans s7
  have eC : push process 1 h7 (h0.length + 3) a = some (c, h8, [(h0.length + 3, a)]) := by
    simp [push, p8, pushOpt, next_of_shape s8, first_of_shape s8, nC, fC]
  have eA : push process 2 h6 (h0.length + 1) r
      = some (a, h8, [(h0.length + 1, r), (h0.length + 3, a)]) := by
    simp [push, p7, pushOpt, next_of_shape s7, first_of_shape s7, nA, fA, p8,
      next_of_shape s8, first_of_shape s8, nC, fC]
  have eB : push process 3 h5 (h0.length + 2) r
      = some (b, h8, [(h0.length + 2, r), (h0.length + 1, r), (h0.length + 3, a)]) := by
    rw [push, p6]
    simp only [next_of_shape s6, nB, pushOpt, eA, Option.map, first_of_shape s8, fB]
    rfl
  refine ⟨r, b, a, c, h5, h6, h7, h8, p5, p6, p7, p8, ?_⟩
  rw [push, p5]
  simp only [next_of_shape s5, nR, pushOpt, first_of_shape s5, fR, eB, Option.map]
  rfl

/-- C2 (witness of the amended claim): the `Limiter` root with three buffers. -/
theorem fanout_push_witness :
    fanout [] (Obj.Limiter 0 0 1) (Obj.Buffer [0, 0]) (Obj.Buffer [0, 0]) (Obj.Buffer [0, 0])
      = some Obj.fanoutLimiter ∧
    Obj.allSimple Obj.fanoutLimiter = true ∧
    ∃ r b a c h5 h6 h7 h8,
      Obj.process Obj.fanoutLimiter ([] : Heap Obj).length 5 = some (r, h5) ∧
      Obj.process h5 (([] : Heap Obj).length + 2) r = some (b, h6) ∧
      Obj.process h6 (([] : Heap Obj).length + 1) r = some (a, h7) ∧
      Obj.process h7 (([] : Heap Obj).length + 3) a = some (c, h8) ∧
      push Obj.process 4 Obj.fanoutLimiter ([] : Heap Obj).length 5 = some (r, h8,
        [(([] : Heap Obj).length, 5), (([] : Heap Obj).length + 2, r),
         (([] : Heap Obj).length + 1, r), (([] : Heap Obj).length + 3, a)]) :=
  ⟨by decide, by decide,
    fanout_push Obj.process (fun h => Obj.allSimple h = true)
      (fun h n x hh hn => Obj.process_simple h n x hh hn)
      [] (Obj.Limiter 0 0 1) (Obj.Buffer [0, 0]) (Obj.Buffer [0, 0]) (Obj.Buffer [0, 0])
      Obj.fanoutLimiter (by decide) (by decide) 5⟩

/-! ## C3: the window of a `Buffer` -/

theorem usub_one {n : Nat} (hn : 1 ≤ n) (hsz : n < SIZE_MOD) : usub n 1 = n - 1 := by
  unfold usub SIZE_MOD at *
  omega

theorem processAll_eq {T : Type} (z : T) (n : Nat) (hn : 1 ≤ n) (xs : List T) :
    ∀ ys : List T, Buffer.processAll ((ys.reverse ++ List.replicate n z).take n) xs
      = some (((ys ++ xs).reverse ++ List.replicate n z).take n) := by
  induction xs with
  | nil => intro ys; simp [Buffer.processAll]
  | cons x xs ih =>
    intro ys
    obtain ⟨m, rfl⟩ : ∃ m, n = m + 1 := ⟨n - 1, by omega⟩
    have hlen : ((ys.reverse ++ List.replicate (m + 1) z).take (m + 1)).length = m + 1 := by
      simp
    have hstep : Buffer.process ((ys.reverse ++ List.replicate (m + 1) z).take (m + 1)) x
        = some (x, (((ys ++ [x]).reverse ++ List.replicate (m + 1) z).take (m + 1))) := by
      cases hd : (ys.reverse ++ List.replicate (m + 1) z).take (m + 1) with
      | nil => rw [hd] at hlen; simp at hlen
      | cons a t =>
        rw [← hd]
        have : Buffer.process ((ys.reverse ++ List.replicate (m + 1) z).take (m + 1)) x
            = some (x, x :: ((ys.reverse ++ List.replicate (m + 1) z).take (m + 1)).dropLast) := by
          rw [hd]; rfl
        rw [this, List.dropLast_eq_take, hlen, List.take_take]
        simp
    have := ih (ys ++ [x])
    simp only [List.append_assoc, List.singleton_append] at this
    simp only [Buffer.processAll, hstep, Option.bind]
    simpa using this

theorem Buffer.create_root (n : Nat) :
    Buffer.create [] n none = some [⟨0, none, none, none, Obj.Buffer (List.replicate n 0)⟩] := by
  simp [Buffer.create, ProcessChain.new, setParent, ASSERT, Buffer.new, Buffer_T.float]

theorem Obj.pushAll_single (ys : List ℚ) :
    ∀ d : List ℚ, Obj.pushAll 1 [⟨0, none, none, none, Obj.Buffer d⟩] 0 ys
      = (Buffer.processAll d ys).map (fun d1 => [⟨0, none, none, none, Obj.Buffer d1⟩]) := by
  induction ys with
  | nil => intro d; rfl
  | cons y ys ih =>
    intro d
    cases d with
    | nil => rfl
    | cons a t =>
      have : Obj.push 1 [⟨0, none, none, none, Obj.Buffer (a :: t)⟩] 0 y
          = some (y, [⟨0, none, none, none, Obj.Buffer (y :: (a :: t).dropLast)⟩], [(0, y)]) := rfl
      simp only [Obj.pushAll, this, Option.bind, Buffer.processAll, Buffer.process]
      exact ih _

/-- C3: a `Buffer` constructed with capacity `n ≥ 1` that has received the values `xs` in
order holds exactly `n` elements, the first `n` of `xs` reversed followed by trait zeros; the
value pushed last is at position 0 and is what `out()` returns. The second part says the same
of the pushes `ys` made with `in` into a `Buffer<float>` object without relatives. -/
theorem window_invariant {T : Type} (tr : Buffer_T T) (n : Nat) (hn : 1 ≤ n) (xs : List T)
    (ys : List ℚ) :
    (∃ d, Buffer.processAll (Buffer.new tr n) xs = some d ∧ d.length = n ∧
      d = (xs.reverse ++ List.replicate n tr.zero).take n ∧
      ∀ x, xs.getLast? = some x → d[0]? = some x ∧ Buffer.out d = some x) ∧
    (Buffer.create [] n none).bind (fun h => Obj.pushAll 1 h 0 ys)
      = some [⟨0, none, none, none,
          Obj.Buffer ((ys.reverse ++ List.replicate n Buffer_T.float.zero).take n)⟩] := by
  constructor
  · refine ⟨_, ?_, ?_, rfl, ?_⟩
    · have := processAll_eq tr.zero n hn xs []
      simpa [Buffer.new] using this
    · simp
    · intro x hx
      obtain ⟨m, rfl⟩ : ∃ m, n = m + 1 := ⟨n - 1, by omega⟩
      have hr : xs.reverse.head? = some x := by rw [List.head?_reverse]; exact hx
      cases hrev : xs.reverse with
      | nil => rw [hrev] at hr; simp at hr
      | cons a t =>
        rw [hrev] at hr
        simp only [List.head?_cons, Option.some.injEq] at hr
        subst hr
        simp [Buffer.out]
  · have := processAll_eq (0 : ℚ) n hn ys []
    simp only [List.reverse_nil, List.nil_append, List.take_replicate, Nat.min_self] at this
    simp only [Buffer.create_root, Option.bind, Obj.pushAll_single, this, Option.map,
      Buffer_T.float]

/-- C3 (witness): capacity 3 and the pushes 3, 1, 4, 1, 5. -/
theorem window_invariant_witness : (1 ≤ 3) ∧
    ((∃ d, Buffer.processAll (Buffer.new Buffer_T.int 3) [3, 1, 4, 1, 5] = some d ∧ d.length = 3 ∧
      d = (([3, 1, 4, 1, 5] : List ℤ).reverse ++ List.replicate 3 Buffer_T.int.zero).take 3 ∧
      ∀ x, ([3, 1, 4, 1, 5] : List ℤ).getLast? = some x → d[0]? = some x ∧ Buffer.out d = some x) ∧
    (Buffer.create [] 3 none).bind (fun h => Obj.pushAll 1 h 0 [2, 7])
      = some [⟨0, none, none, none,
          Obj.Buffer ((([2, 7] : List ℚ).reverse ++ List.replicate 3 Buffer_T.float.zero).take 3)⟩]) :=
  ⟨by decide, window_invariant Buffer_T.int 3 (by decide) [3, 1, 4, 1, 5] [2, 7]⟩

/-! ## C4: `Buffer::sample` inside the window -/

theorem cast_pred {n : Nat} (hn : 1 ≤ n) : ((n - 1 : Nat) : ℚ) = (n : ℚ) - 1 := by
  rw [Nat.cast_sub hn]; simp

/-- The clamped index lies in `[0, size - 1]`. -/
theorem sampleIndex_bounds {T : Type} (d : List T) (x : ℚ) (hn : 1 ≤ d.length)
    (hsz : d.length < SIZE_MOD) :
    0 ≤ Buffer.sampleIndex d x ∧ Buffer.sampleIndex d x ≤ (d.length : ℚ) - 1 := by
  unfold Buffer.sampleIndex
  rw [usub_one hn hsz, cast_pred hn]
  have : (1 : ℚ) ≤ d.length := by exact_mod_cast hn
  constructor
  · apply le_min
    · exact le_max_right _ _
    · linarith
  · exact min_le_right _ _

theorem sampleIndex_of_mem {T : Type} (d : List T) (x : ℚ) (hn : 1 ≤ d.length)
    (hsz : d.length < SIZE_MOD) (h0 : 0 ≤ x) (h1 : x ≤ (d.length : ℚ) - 1) :
    Buffer.sampleIndex d x = x := by
  unfold Buffer.sampleIndex
  rw [usub_one hn hsz, cast_pred hn, max_eq_left h0, min_eq_left h1]

theorem toSize_bounds (y : ℚ) (n : Nat) (hn : 1 ≤ n) (h0 : 0 ≤ y) (h1 : y ≤ (n : ℚ) - 1) :
    toSize y ≤ n - 1 ∧ ((toSize y : Nat) : ℚ) = (⌊y⌋ : ℚ) := by
  unfold toSize
  have hf0 : 0 ≤ ⌊y⌋ := Int.floor_nonneg.mpr h0
  have hf1 : ⌊y⌋ ≤ (n : ℤ) - 1 := by
    have : (⌊y⌋ : ℚ) ≤ ((n : ℤ) - 1 : ℤ) := by
      push_cast
      exact le_trans (Int.floor_le y) h1
    exact_mod_cast this
  constructor
  · omega
  · have : ((⌊y⌋.toNat : ℤ) : ℚ) = (⌊y⌋ : ℚ) := by rw [Int.toNat_of_nonneg hf0]
    exact_mod_cast this

theorem sampleI0_lt {T : Type} (d : List T) (x : ℚ) (hn : 1 ≤ d.length)
    (hsz : d.length < SIZE_MOD) : Buffer.sampleI0 d x < d.length := by
  have hb := sampleIndex_bounds d x hn hsz
  have := (toSize_bounds _ d.length hn hb.1 hb.2).1
  unfold Buffer.sampleI0
  omega

theorem sampleI1_eq {T : Type} (d : List T) (x : ℚ) (hn : 1 ≤ d.length)
    (hsz : d.length < SIZE_MOD) :
    Buffer.sampleI1 d x = min (Buffer.sampleI0 d x + 1) (d.length - 1) := by
  have := sampleI0_lt d x hn hsz
  unfold Buffer.sampleI1
  rw [usub_one hn hsz]
  unfold uadd SIZE_MOD at *
  omega

/-- C4: for a window of `n ≥ 1` elements and an index `x` in `[0, n - 1]`, with
`i0 = floor(x)`, `i1 = min(i0 + 1, n - 1)` and `frac = x - i0`, both elements exist, `Nearest`
gives the element `i0` when `frac < 0.5` and the element `i1` otherwise, `Linear` and `Spline`
give `mix` of the two at `frac` when the trait is interpolatable and the result of `Nearest`
when it is not. -/
theorem sample_in_range {T : Type} (tr : Buffer_T T) (d : List T) (x : ℚ)
    (hn : 1 ≤ d.length) (hsz : d.length < SIZE_MOD) (h0 : 0 ≤ x)
    (h1 : x ≤ (d.length : ℚ) - 1) :
    ∃ a b, d[⌊x⌋.toNat]? = some a ∧ d[min (⌊x⌋.toNat + 1) (d.length - 1)]? = some b ∧
      Buffer.sample tr d x SampleType.Nearest
        = some (if x - (⌊x⌋.toNat : ℚ) < 1 / 2 then a else b) ∧
      (tr.linear = true →
        Buffer.sample tr d x SampleType.Linear = some (tr.mix a b (x - (⌊x⌋.toNat : ℚ))) ∧
        Buffer.sample tr d x SampleType.Spline = some (tr.mix a b (x - (⌊x⌋.toNat : ℚ)))) ∧
      (tr.linear = false →
        Buffer.sample tr d x SampleType.Linear = Buffer.sample tr d x SampleType.Nearest ∧
        Buffer.sample tr d x SampleType.Spline = Buffer.sample tr d x SampleType.Nearest) := by
  have hidx := sampleIndex_of_mem d x hn hsz h0 h1
  have hi0 : Buffer.sampleI0 d x = ⌊x⌋.toNat := by simp [Buffer.sampleI0, hidx, toSize]
  have hi1 : Buffer.sampleI1 d x = min (⌊x⌋.toNat + 1) (d.length - 1) := by
    rw [sampleI1_eq d x hn hsz, hi0]
  have hir : Buffer.sampleIr d x = x - (⌊x⌋.toNat : ℚ) := by
    simp [Buffer.sampleIr, hidx, hi0]
  have l0 : ⌊x⌋.toNat < d.length := by rw [← hi0]; exact sampleI0_lt d x hn hsz
  have l1 : min (⌊x⌋.toNat + 1) (d.length - 1) < d.length := by omega
  refine ⟨d[⌊x⌋.toNat], d[min (⌊x⌋.toNat + 1) (d.length - 1)],
    List.getElem?_eq_getElem l0, List.getElem?_eq_getElem l1, ?_, ?_, ?_⟩
  · simp only [Buffer.sample, hi0, hi1, hir, List.getElem?_eq_getElem l0,
      List.getElem?_eq_getElem l1]
    split <;> split <;> simp_all
  · intro hl
    simp [Buffer.sample, hi0, hi1, hir, List.getElem?_eq_getElem l0,
      List.getElem?_eq_getElem l1, hl]
  · intro hl
    simp [Buffer.sample, hl]

/-- C4 (witness): the window of the sampling test and the index 4.3. -/
theorem sample_in_range_witness :
    1 ≤ Buffer.sampleDemo.length ∧ Buffer.sampleDemo.length < SIZE_MOD ∧
    (0 : ℚ) ≤ 43 / 10 ∧ (43 / 10 : ℚ) ≤ (Buffer.sampleDemo.length : ℚ) - 1 ∧
    ∃ a b, Buffer.sampleDemo[⌊(43 / 10 : ℚ)⌋.toNat]? = some a ∧
      Buffer.sampleDemo[min (⌊(43 / 10 : ℚ)⌋.toNat + 1) (Buffer.sampleDemo.length - 1)]?
        = some b ∧
      Buffer.sample Buffer_T.int Buffer.sampleDemo (43 / 10) SampleType.Nearest
        = some (if (43 / 10 : ℚ) - (⌊(43 / 10 : ℚ)⌋.toNat : ℚ) < 1 / 2 then a else b) ∧
      (Buffer_T.int.linear = true →
        Buffer.sample Buffer_T.int Buffer.sampleDemo (43 / 10) SampleType.Linear
          = some (Buffer_T.int.mix a b ((43 / 10 : ℚ) - (⌊(43 / 10 : ℚ)⌋.toNat : ℚ))) ∧
        Buffer.sample Buffer_T.int Buffer.sampleDemo (43 / 10) SampleType.Spline
          = some (Buffer_T.int.mix a b ((43 / 10 : ℚ) - (⌊(43 / 10 : ℚ)⌋.toNat : ℚ)))) ∧
      (Buffer_T.int.linear = false →
        Buffer.sample Buffer_T.int Buffer.sampleDemo (43 / 10) SampleType.Linear
          = Buffer.sample Buffer_T.int Buffer.sampleDemo (43 / 10) SampleType.Nearest ∧
        Buffer.sample Buffer_T.int Buffer.sampleDemo (43 / 10) SampleType.Spline
          = Buffer.sample Buffer_T.int Buffer.sampleDemo (43 / 10) SampleType.Nearest) :=
  ⟨by decide, by decide, by norm_num, by norm_num [Buffer.sampleDemo],
    sample_in_range Buffer_T.int Buffer.sampleDemo (43 / 10) (by decide) (by decide)
      (by norm_num) (by norm_num [Buffer.sampleDemo])⟩

/-! ## Rounding to `float` -/

theorem roundEven_intCast (z : ℤ) : roundEven (z : ℚ) = z := by
  simp [roundEven]

/-- Integers of magnitude up to `2 ^ 24` are values of type `float`. -/
theorem f32_intCast (n : ℤ) (hn : |n| ≤ 16777216) : f32 (n : ℚ) = n := by
  by_cases h0 : n = 0
  · subst h0; simp [f32]
  have hq0 : (n : ℚ) ≠ 0 := by exact_mod_cast h0
  have habs : |(n : ℚ)| = ((n.natAbs : ℕ) : ℚ) := by
    rw [Nat.cast_natAbs, Int.cast_abs]
  have hpos : 0 < n.natAbs := Int.natAbs_pos.mpr h0
  have hle : n.natAbs ≤ 16777216 := by
    have := Int.abs_eq_natAbs n
    omega
  have hlog : Int.log 2 |(n : ℚ)| = (Nat.log 2 n.natAbs : ℤ) := by
    rw [habs, Int.log_natCast]
  have hl24 : Nat.log 2 n.natAbs ≤ 24 := by
    have : Nat.log 2 n.natAbs < 25 := by
      apply Nat.log_lt_of_lt_pow (by omega)
      norm_num
      omega
    omega
  have hmax : max (Nat.log 2 n.natAbs : ℤ) (-126) = (Nat.log 2 n.natAbs : ℤ) := by
    apply max_eq_left
    omega
  simp only [f32, if_neg hq0, hlog, hmax]
  by_cases h24 : Nat.log 2 n.natAbs = 24
  · have h2 : 2 ^ 24 ≤ n.natAbs := by
      rw [← h24]
      exact Nat.pow_log_le_self 2 (by omega)
    have hna : n.natAbs = 16777216 := by norm_num at h2; omega
    rw [h24]
    have hn2 : n = 16777216 ∨ n = -16777216 := by omega
    rcases hn2 with rfl | rfl
    · norm_num [roundEven]
    · norm_num [roundEven]
  · obtain ⟨k, hk⟩ : ∃ k : ℕ, (Nat.log 2 n.natAbs : ℤ) - 23 = -(k : ℤ) :=
      ⟨23 - Nat.log 2 n.natAbs, by omega⟩
    rw [hk, zpow_neg, zpow_natCast, div_inv_eq_mul]
    have : (n : ℚ) * 2 ^ k = ((n * 2 ^ k : ℤ) : ℚ) := by push_cast; ring
    rw [this, roundEven_intCast]
    push_cast
    field_simp

theorem f32_eval (n : ℕ) (e : ℕ) (m : ℤ) (h1 : 2 ^ (e + 23) ≤ n) (h2 : n < 2 ^ (e + 24))
    (hm : roundEven ((n : ℚ) / 2 ^ e) = m) : f32 (n : ℚ) = (m : ℚ) * 2 ^ e := by
  have hn0 : n ≠ 0 := by
    intro h
    subst h
    have : 0 < 2 ^ (e + 23) := Nat.two_pow_pos _
    omega
  have hq0 : (n : ℚ) ≠ 0 := by exact_mod_cast hn0
  have habs : |(n : ℚ)| = ((n : ℕ) : ℚ) := abs_of_nonneg (Nat.cast_nonneg n)
  have hlog : Nat.log 2 n = e + 23 := by
    rw [Nat.log_eq_iff (Or.inr ⟨by norm_num, hn0⟩)]
    exact ⟨h1, h2⟩
  have hmax : max ((e + 23 : ℕ) : ℤ) (-126) = ((e + 23 : ℕ) : ℤ) := by
    apply max_eq_left
    omega
  have hz : ((e + 23 : ℕ) : ℤ) - 23 = (e : ℤ) := by push_cast; ring
  simp only [f32, if_neg hq0, habs, Int.log_natCast, hlog, hmax, hz, zpow_natCast, hm]

theorem f32_16777219 : f32 16777219 = 16777220 := by
  have := f32_eval 16777219 1 8388610 (by norm_num) (by norm_num) (by decide!)
  norm_num at this
  exact this

theorem roundEven_nonneg (r : ℚ) (hr : 0 ≤ r) : 0 ≤ roundEven r := by
  have hf : 0 ≤ ⌊r⌋ := Int.floor_nonneg.mpr hr
  unfold roundEven
  split
  · exact hf
  · split
    · omega
    · split <;> omega

theorem f32_nonneg (x : ℚ) (hx : 0 ≤ x) : 0 ≤ f32 x := by
  unfold f32
  split
  · exact le_refl _
  · have hq : (0 : ℚ) < 2 ^ (max (Int.log 2 |x|) (-126) - 23) := zpow_pos (by norm_num) _
    have := roundEven_nonneg (x / 2 ^ (max (Int.log 2 |x|) (-126) - 23)) (div_nonneg hx hq.le)
    exact mul_nonneg (by exact_mod_cast this) hq.le

/-! ## C5: the clamp of `Buffer::sample` in `float` -/

/-- For a capacity up to `2 ^ 24 + 1` the bound of line 225 is `size() - 1` itself. -/
theorem sampleBound_exact {T : Type} (d : List T) (hn : 1 ≤ d.length)
    (hc : d.length ≤ 16777217) : Buffer.sampleBound d = (d.length : ℚ) - 1 := by
  have hsz : d.length < SIZE_MOD := by unfold SIZE_MOD; omega
  unfold Buffer.sampleBound
  rw [usub_one hn hsz, cast_pred hn]
  have := f32_intCast ((d.length : ℤ) - 1) (by rw [abs_of_nonneg (by omega)]; omega)
  push_cast at this
  exact this

/-- The capacity 16777220: `size() - 1` is halfway between the `float` values 16777218 and
16777220 and is converted to the latter, so that an index from 16777220 on is left at
16777220, the position one past the last. -/
theorem sampleFloat_past_end {T : Type} (tr : Buffer_T T) (d : List T)
    (hd : d.length = 16777220) (type : SampleType) :
    Buffer.sampleBound d = 16777220 ∧ Buffer.sampleFloatI0 d 16777220 = 16777220 ∧
    Buffer.sampleFloat tr d 16777220 type = none := by
  have hb : Buffer.sampleBound d = 16777220 := by
    unfold Buffer.sampleBound
    rw [hd]
    have : usub 16777220 1 = 16777219 := by decide
    rw [this]
    exact_mod_cast f32_16777219
  have hidx : Buffer.sampleIndexFloat d 16777220 = 16777220 := by
    unfold Buffer.sampleIndexFloat
    rw [hb]
    norm_num
  have hi0 : Buffer.sampleFloatI0 d 16777220 = 16777220 := by
    unfold Buffer.sampleFloatI0
    rw [hidx]
    unfold toSize
    have : ⌊(16777220 : ℚ)⌋ = 16777220 := by
      have := Int.floor_intCast (α := ℚ) 16777220
      exact_mod_cast this
    rw [this]
    rfl
  have hnone : d[16777220]? = none := List.getElem?_eq_none (by omega)
  refine ⟨hb, hi0, ?_⟩
  simp only [Buffer.sampleFloat, hi0, hidx, hnone]
  generalize (if (!tr.linear) = true then SampleType.Nearest else type) = t
  cases t
  · show (if _ then _ else _) = none
    rw [if_pos (by norm_num)]
  · rfl
  · rfl

/-- C5 (the code at a failing input): on a window of 16777220 elements the bound of line 225 is
16777220, not 16777219; `sample(16777220, Linear)` reads the position `i0 = 16777220`, which is
not below the capacity, and `at` throws, while the claim has it equal to `sample` at the
clamped index 16777219 and reading inside the window. -/
theorem sample_reads_past_end :
    (List.replicate 16777220 (0 : ℚ)).length = 16777220 ∧
    Buffer.sampleBound (List.replicate 16777220 (0 : ℚ)) = 16777220 ∧
    Buffer.sampleFloatI0 (List.replicate 16777220 (0 : ℚ)) 16777220 = 16777220 ∧
    Buffer.sampleFloat Buffer_T.float (List.replicate 16777220 0) 16777220 SampleType.Linear
      = none ∧
    clamp 16777220 0 (((List.replicate 16777220 (0 : ℚ)).length : ℚ) - 1) = 16777219 := by
  have hl : (List.replicate 16777220 (0 : ℚ)).length = 16777220 := List.length_replicate _ _
  obtain ⟨h1, h2, h3⟩ := sampleFloat_past_end Buffer_T.float (List.replicate 16777220 (0 : ℚ))
    hl SampleType.Linear
  refine ⟨hl, h1, h2, h3, ?_⟩
  rw [hl]
  norm_num [clamp]

/-- Where the bound `static_cast<fsize_t>(n - 1)` does not exceed `n - 1`, as for every
capacity up to `2 ^ 24 + 1`, the clamp does what it is there for: for every policy and every
index `x`, `sample(x)` equals `sample(clamp(x, 0, n - 1))`, the two positions read lie below
`n`, and the access succeeds. -/
theorem sampleFloat_clamped {T : Type} (tr : Buffer_T T) (d : List T) (x : ℚ) (type : SampleType)
    (hn : 1 ≤ d.length) (hsz : d.length < SIZE_MOD)
    (hb : Buffer.sampleBound d ≤ (d.length : ℚ) - 1) :
    Buffer.sampleFloat tr d x type
      = Buffer.sampleFloat tr d (clamp x 0 ((d.length : ℚ) - 1)) type ∧
    Buffer.sampleFloatI0 d x < d.length ∧ Buffer.sampleFloatI1 d x < d.length ∧
    (Buffer.sampleFloat tr d x type).isSome = true := by
  have hb0 : 0 ≤ Buffer.sampleBound d := f32_nonneg _ (Nat.cast_nonneg _)
  have hc : Buffer.sampleIndexFloat d (clamp x 0 ((d.length : ℚ) - 1))
      = Buffer.sampleIndexFloat d x := by
    unfold Buffer.sampleIndexFloat clamp
    by_cases hx0 : x < 0
    · simp [hx0, max_eq_right (le_of_lt hx0)]
    · by_cases hx1 : x > (d.length : ℚ) - 1
      · rw [if_neg hx0, if_pos hx1]
        have e1 : max ((d.length : ℚ) - 1) 0 = (d.length : ℚ) - 1 := max_eq_left (by linarith)
        have e2 : max x 0 = x := max_eq_left (by linarith)
        rw [e1, e2, min_eq_right hb, min_eq_right (by linarith)]
      · rw [if_neg hx0, if_neg hx1]
  have hidx0 : 0 ≤ Buffer.sampleIndexFloat d x := le_min (le_max_right _ _) hb0
  have hidx1 : Buffer.sampleIndexFloat d x ≤ (d.length : ℚ) - 1 :=
    le_trans (min_le_right _ _) hb
  have l0 : Buffer.sampleFloatI0 d x < d.length := by
    unfold Buffer.sampleFloatI0 toSize
    have hf : ⌊Buffer.sampleIndexFloat d x⌋ ≤ (d.length : ℤ) - 1 := by
      have : (⌊Buffer.sampleIndexFloat d x⌋ : ℚ) ≤ (((d.length : ℤ) - 1 : ℤ) : ℚ) := by
        push_cast
        exact le_trans (Int.floor_le _) hidx1
      exact_mod_cast this
    omega
  have l1 : Buffer.sampleFloatI1 d x < d.length := by
    unfold Buffer.sampleFloatI1
    have : usub d.length 1 = d.length - 1 := usub_one hn hsz
    rw [this]
    omega
  refine ⟨?_, l0, l1, ?_⟩
  · simp only [Buffer.sampleFloat, Buffer.sampleFloatI0, Buffer.sampleFloatI1, hc]
  · simp only [Buffer.sampleFloat, List.getElem?_eq_getElem l0, List.getElem?_eq_getElem l1]
    generalize (if (!tr.linear) = true then SampleType.Nearest else type) = t
    cases t
    · show Option.isSome (if _ then _ else _) = true
      split <;> rfl
    · rfl
    · rfl

/-- The window of the sampling test, the index 100 and `Linear`: the clamp keeps the read
inside the window. -/
theorem sampleFloat_clamped_demo :
    Buffer.sampleBound Buffer.sampleDemo ≤ (Buffer.sampleDemo.length : ℚ) - 1 ∧
    Buffer.sampleFloat Buffer_T.int Buffer.sampleDemo 100 SampleType.Linear
      = Buffer.sampleFloat Buffer_T.int Buffer.sampleDemo
          (clamp 100 0 ((Buffer.sampleDemo.length : ℚ) - 1)) SampleType.Linear ∧
    Buffer.sampleFloatI0 Buffer.sampleDemo 100 < Buffer.sampleDemo.length ∧
    Buffer.sampleFloatI1 Buffer.sampleDemo 100 < Buffer.sampleDemo.length ∧
    (Buffer.sampleFloat Buffer_T.int Buffer.sampleDemo 100 SampleType.Linear).isSome = true :=
  ⟨le_of_eq (sampleBound_exact Buffer.sampleDemo (by decide) (by decide)),
    sampleFloat_clamped Buffer_T.int Buffer.sampleDemo 100 SampleType.Linear (by decide)
      (by decide) (le_of_eq (sampleBound_exact Buffer.sampleDemo (by decide) (by decide)))⟩

/-- Where the conversion of `size() - 1` to `float` is exact, as for every capacity up to
`2 ^ 24 + 1`, `Buffer.sampleFloat` is `Buffer.sample`. -/
theorem sampleFloat_eq_sample {T : Type} (tr : Buffer_T T) (d : List T) (x : ℚ)
    (type : SampleType) (hb : Buffer.sampleBound d = ((usub d.length 1 : Nat) : ℚ)) :
    Buffer.sampleFloat tr d x type = Buffer.sample tr d x type := by
  have hidx : Buffer.sampleIndexFloat d x = Buffer.sampleIndex d x := by
    unfold Buffer.sampleIndexFloat Buffer.sampleIndex
    rw [hb]
  simp only [Buffer.sampleFloat, Buffer.sample, Buffer.sampleFloatI0, Buffer.sampleFloatI1,
    Buffer.sampleI0, Buffer.sampleI1, Buffer.sampleIr, hidx]

/-! ## C6, C7: `Buffer::to` and `MidAntiJitter` -/

/-- C6 (the code at failing inputs): `Buffer::to` of the window `[1, 2]` into an empty vector
leaves the vector with `size()` 0, the copy going past `end()`; into a vector of three elements
it leaves three elements, the last one stale. In neither case does the destination end up with
length 2. -/
theorem to_keeps_size :
    (Buffer.to ([1, 2] : List ℤ) StdVector.empty).size = 0 ∧
    Buffer.toInRange ([1, 2] : List ℤ) StdVector.empty = false ∧
    Buffer.to ([1, 2] : List ℤ) ⟨[7, 8, 9], []⟩ = ⟨[1, 2, 9], []⟩ := by
  decide

/-- C7 (the code at the failing input): a `MidAntiJitter` of window size 5 under a root filter,
after the pushes 3, 1, 4, 1, 5 into the root: its window is `[5, 1, 4, 1, 3]`, `m_tmpBuf` still
has `size()` 0 so that nothing was sorted, and its output is 4, the element 2 of the unsorted
window, while the element 2 of the sorted window is 3. -/
theorem midAntiJitter_unsorted :
    ((Obj.pushAll 3 Obj.midDemo 0 [3, 1, 4, 1, 5]).bind fun h => Obj.deque h 2)
      = some [5, 1, 4, 1, 3] ∧
    ((Obj.pushAll 3 Obj.midDemo 0 [3, 1, 4, 1, 5]).bind fun h => Obj.out h 1) = some 4 ∧
    (([5, 1, 4, 1, 3] : List ℚ).insertionSort (fun a b => a ≤ b))[5 / 2]? = some 3 := by
  decide

/-! ## C8, C9: `NuBuffer::seek` -/

/-- C8 (the code at the failing input): with the 16 times 15, 14, ..., 0 (strictly decreasing by
position), `seek(t[3], Nearest)` is 4 and not 3, and for the time 11.75, closer to `t[3] = 12`
than to `t[4] = 11`, it is 4 as well: of the two bracketing positions the farther is returned. -/
theorem seek_nearest_returns_farther :
    NuBuffer.timeDemo[3]? = some 12 ∧ NuBuffer.timeDemo[4]? = some 11 ∧
    NuBuffer.seek NuBuffer.timeDemo 12 SampleType.Nearest = some 4 ∧
    NuBuffer.seek NuBuffer.timeDemo (47 / 4) SampleType.Nearest = some 4 := by
  refine ⟨by decide, by decide, ?_, ?_⟩
  · simp [NuBuffer.timeDemo, NuBuffer.seek, NuBuffer.seekLoop, uadd, usub, SIZE_MOD]
    norm_num
  · simp [NuBuffer.timeDemo, NuBuffer.seek, NuBuffer.seekLoop, uadd, usub, SIZE_MOD]
    norm_num

theorem getElem?_getD (t : List ℚ) {i : Nat} (hi : i < t.length) :
    t[i]? = some (t.getD i 0) := by
  rw [List.getElem?_eq_getElem hi, List.getD_eq_getElem t 0 hi]

theorem getD_anti (t : List ℚ) (hdec : t.Pairwise (fun a b => a > b)) {i j : Nat}
    (hij : i < j) (hj : j < t.length) : t.getD j 0 < t.getD i 0 := by
  have hi : i < t.length := by omega
  rw [List.getD_eq_getElem t 0 hi, List.getD_eq_getElem t 0 hj]
  exact (List.pairwise_iff_getElem.mp hdec) i j hi hj hij

theorem shiftRight_one (x : Nat) : x >>> 1 = x / 2 := by
  simp [Nat.shiftRight_eq_div_pow]

/-- The loop of `seek` ends with adjacent positions that keep the loop invariant. -/
theorem seekLoop_spec (t : List ℚ) (q : ℚ) (hsz : 2 * t.length < SIZE_MOD) :
    ∀ fuel l r, l < r → r < t.length → r - l ≤ fuel + 1 →
      (l = 0 ∨ q ≤ t.getD l 0) → (r = t.length - 1 ∨ t.getD r 0 < q) →
      ∃ k, k + 1 < t.length ∧ NuBuffer.seekLoop t q fuel l r = some (k, k + 1) ∧
        (k = 0 ∨ q ≤ t.getD k 0) ∧ (k + 1 = t.length - 1 ∨ t.getD (k + 1) 0 < q) := by
  intro fuel
  induction fuel with
  | zero =>
    intro l r hlr hr hf hl hR
    have e : r = l + 1 := by omega
    subst e
    refine ⟨l, hr, ?_, hl, hR⟩
    have : ¬ uadd l 1 < l + 1 := by unfold uadd SIZE_MOD at *; omega
    simp [NuBuffer.seekLoop, this]
  | succ fuel ih =>
    intro l r hlr hr hf hl hR
    have hu : uadd l 1 = l + 1 := by unfold uadd SIZE_MOD at *; omega
    by_cases hc : l + 1 < r
    · have hm : uadd l r >>> 1 = (l + r) / 2 := by
        rw [shiftRight_one]; unfold uadd SIZE_MOD at *; omega
      have hml : l < (l + r) / 2 := by omega
      have hmr : (l + r) / 2 < r := by omega
      have hg := getElem?_getD t (show (l + r) / 2 < t.length by omega)
      by_cases hlt : t.getD ((l + r) / 2) 0 < q
      · obtain ⟨k, hk⟩ := ih l ((l + r) / 2) hml (by omega) (by omega) hl (Or.inr hlt)
        refine ⟨k, ?_⟩
        rw [NuBuffer.seekLoop]
        simp only [hu, hc, if_true, hm, hg, hlt]
        exact hk
      · obtain ⟨k, hk⟩ := ih ((l + r) / 2) r hmr hr (by omega) (Or.inr (not_lt.mp hlt)) hR
        refine ⟨k, ?_⟩
        rw [NuBuffer.seekLoop]
        simp only [hu, hc, if_true, hm, hg, hlt, if_false]
        exact hk
    · have e : r = l + 1 := by omega
      subst e
      refine ⟨l, hr, ?_, hl, hR⟩
      simp [NuBuffer.seekLoop, hu]

/-- The result of `seek` in terms of the positions found by the loop. -/
theorem seek_linear_eq (t : List ℚ) (q : ℚ) (hn : 2 ≤ t.length) (hsz : 2 * t.length < SIZE_MOD)
    (hdec : t.Pairwise (fun a b => a > b)) :
    ∃ k, k + 1 < t.length ∧
      NuBuffer.seekLoop t q t.length 0 (usub t.length 1) = some (k, k + 1) ∧
      NuBuffer.seek t q SampleType.Linear = some ((k : ℚ) +
        clamp ((q - t.getD k 0) / (t.getD (k + 1) 0 - t.getD k 0)) 0 1) ∧
      (k = 0 ∨ q ≤ t.getD k 0) ∧ (k + 1 = t.length - 1 ∨ t.getD (k + 1) 0 < q) := by
  have hu : usub t.length 1 = t.length - 1 := by unfold usub SIZE_MOD at *; omega
  obtain ⟨k, hk, hloop, hl, hr⟩ := seekLoop_spec t q hsz t.length 0 (t.length - 1)
    (by omega) (by omega) (by omega) (Or.inl rfl) (Or.inl rfl)
  refine ⟨k, hk, by rw [hu]; exact hloop, ?_, hl, hr⟩
  have hk1 : usub (k + 1) 1 = k := by unfold usub SIZE_MOD at *; omega
  have hne : t.getD (k + 1) 0 - t.getD k 0 ≠ 0 := by
    have := getD_anti t hdec (show k < k + 1 by omega) hk
    intro h; linarith
  unfold NuBuffer.seek
  simp only [hu, hloop, hk1, getElem?_getD t hk, getElem?_getD t (show k < t.length by omega),
    hne, if_false, Nat.succ_pos, gt_iff_lt, if_true]

theorem clamp_unit_bounds (v : ℚ) : 0 ≤ clamp v 0 1 ∧ clamp v 0 1 ≤ 1 := by
  unfold clamp
  split
  · constructor <;> norm_num
  · split
    · constructor <;> norm_num
    · constructor <;> linarith

theorem clamp_of_nonpos {v : ℚ} (h : v ≤ 0) : clamp v 0 1 = 0 := by
  unfold clamp
  split
  · rfl
  · split
    · linarith
    · linarith

theorem clamp_of_one_le {v : ℚ} (h : 1 ≤ v) : clamp v 0 1 = 1 := by
  unfold clamp
  split
  · linarith
  · split
    · rfl
    · linarith

theorem getD_anti_le (t : List ℚ) (hdec : t.Pairwise (fun a b => a > b)) {i j : Nat}
    (hij : i ≤ j) (hj : j < t.length) : t.getD j 0 ≤ t.getD i 0 := by
  rcases Nat.lt_or_eq_of_le hij with h | h
  · exact le_of_lt (getD_anti t hdec h hj)
  · subst h; exact le_refl _

theorem midpoint_fraction (a b : ℚ) (h : b - a ≠ 0) : ((a + b) / 2 - a) / (b - a) = 1 / 2 := by
  field_simp
  ring

/-- C9: for a time reference `t` of `n ≥ 2` entries strictly decreasing by position and every
query time `q`, `seek(q, Linear)` is `l + clamp((q - t[l]) / (t[l+1] - t[l]), 0, 1)` for the
adjacent positions `l`, `l + 1` that the binary search ends with; these satisfy
`t[l] ≥ q ≥ t[l+1]` when `t[n-1] ≤ q ≤ t[0]`; the result lies in `[0, n - 1]`, is 0 for
`q ≥ t[0]` and `n - 1` for `q ≤ t[n-1]`; `seek(t[k], Linear) = k` for every position `k`, and
the seek of the midpoint of `t[k]` and `t[k+1]` is `k + 0.5`. -/
theorem seek_linear (t : List ℚ) (hn : 2 ≤ t.length) (hsz : 2 * t.length < SIZE_MOD)
    (hdec : t.Pairwise (fun a b => a > b)) (q : ℚ) :
    (∃ l res, l + 1 < t.length ∧
      NuBuffer.seekLoop t q t.length 0 (usub t.length 1) = some (l, l + 1) ∧
      NuBuffer.seek t q SampleType.Linear = some res ∧
      res = (l : ℚ) + clamp ((q - t.getD l 0) / (t.getD (l + 1) 0 - t.getD l 0)) 0 1 ∧
      (t.getD (t.length - 1) 0 ≤ q → q ≤ t.getD 0 0 →
        t.getD (l + 1) 0 ≤ q ∧ q ≤ t.getD l 0) ∧
      0 ≤ res ∧ res ≤ (t.length : ℚ) - 1 ∧
      (t.getD 0 0 ≤ q → res = 0) ∧
      (q ≤ t.getD (t.length - 1) 0 → res = (t.length : ℚ) - 1)) ∧
    (∀ k, k < t.length → NuBuffer.seek t (t.getD k 0) SampleType.Linear = some (k : ℚ)) ∧
    (∀ k, k + 1 < t.length →
      NuBuffer.seek t ((t.getD k 0 + t.getD (k + 1) 0) / 2) SampleType.Linear
        = some ((k : ℚ) + 1 / 2)) := by
  have part1 : ∀ q : ℚ, ∃ l res, l + 1 < t.length ∧
      NuBuffer.seekLoop t q t.length 0 (usub t.length 1) = some (l, l + 1) ∧
      NuBuffer.seek t q SampleType.Linear = some res ∧
      res = (l : ℚ) + clamp ((q - t.getD l 0) / (t.getD (l + 1) 0 - t.getD l 0)) 0 1 ∧
      (t.getD (t.length - 1) 0 ≤ q → q ≤ t.getD 0 0 →
        t.getD (l + 1) 0 ≤ q ∧ q ≤ t.getD l 0) ∧
      0 ≤ res ∧ res ≤ (t.length : ℚ) - 1 ∧
      (t.getD 0 0 ≤ q → res = 0) ∧
      (q ≤ t.getD (t.length - 1) 0 → res = (t.length : ℚ) - 1) := by
    intro q
    obtain ⟨k, hk, hloop, hseek, hl, hr⟩ := seek_linear_eq t q hn hsz hdec
    have hcl := clamp_unit_bounds ((q - t.getD k 0) / (t.getD (k + 1) 0 - t.getD k 0))
    have hkq : (0 : ℚ) ≤ k := Nat.cast_nonneg k
    have hkn : (k : ℚ) + 1 ≤ (t.length : ℚ) - 1 := by
      have : ((k + 2 : Nat) : ℚ) ≤ (t.length : ℚ) := by exact_mod_cast (show k + 2 ≤ t.length by omega)
      push_cast at this
      linarith
    have hstep := getD_anti t hdec (show k < k + 1 by omega) hk
    refine ⟨k, _, hk, hloop, hseek, rfl, ?_, by linarith, by linarith, ?_, ?_⟩
    · intro hlast hfirst
      constructor
      · rcases hr with hr | hr
        · rw [hr]; exact hlast
        · exact le_of_lt hr
      · rcases hl with hl | hl
        · rw [hl]; exact hfirst
        · exact hl
    · intro hfirst
      have hk0 : k = 0 := by
        by_contra hne
        rcases hl with hl | hl
        · exact hne hl
        · have := getD_anti t hdec (show 0 < k by omega) (show k < t.length by omega)
          linarith
      subst hk0
      have : (q - t.getD 0 0) / (t.getD (0 + 1) 0 - t.getD 0 0) ≤ 0 :=
        div_nonpos_of_nonneg_of_nonpos (by linarith) (by linarith)
      rw [clamp_of_nonpos this]
      simp
    · intro hlast
      have hk1 : k + 1 = t.length - 1 := by
        by_contra hne
        rcases hr with hr | hr
        · exact hne hr
        · have := getD_anti t hdec (show k + 1 < t.length - 1 by omega)
            (show t.length - 1 < t.length by omega)
          linarith
      have hneg : t.getD (k + 1) 0 - t.getD k 0 < 0 := by linarith
      have : 1 ≤ (q - t.getD k 0) / (t.getD (k + 1) 0 - t.getD k 0) := by
        rw [one_le_div_of_neg hneg]
        rw [hk1]
        linarith
      rw [clamp_of_one_le this]
      have : ((k + 1 : Nat) : ℚ) = ((t.length - 1 : Nat) : ℚ) := by rw [hk1]
      rw [Nat.cast_sub (by omega)] at this
      push_cast at this
      linarith
  refine ⟨part1 q, ?_, ?_⟩
  · intro k hk
    by_cases hlast : k = t.length - 1
    · obtain ⟨l, res, _, _, hseek, _, _, _, _, _, hres⟩ := part1 (t.getD k 0)
      rw [hseek, hres (by rw [hlast])]
      congr 1
      rw [hlast, Nat.cast_sub (by omega)]
      simp
    · obtain ⟨j, hj, _, hseek, hl, hr⟩ := seek_linear_eq t (t.getD k 0) hn hsz hdec
      have hjk : j = k := by
        have h1 : j ≤ k := by
          by_contra hc
          rcases hl with hl | hl
          · omega
          · have := getD_anti t hdec (show k < j by omega) (show j < t.length by omega)
            linarith
        have h2 : k < j + 1 := by
          by_contra hc
          rcases hr with hr | hr
          · omega
          · have := getD_anti_le t hdec (show j + 1 ≤ k by omega) hk
            linarith
        omega
      subst hjk
      rw [hseek]
      simp [clamp]
  · intro k hk
    have hstep := getD_anti t hdec (show k < k + 1 by omega) hk
    obtain ⟨j, hj, _, hseek, hl, hr⟩ :=
      seek_linear_eq t ((t.getD k 0 + t.getD (k + 1) 0) / 2) hn hsz hdec
    have hjk : j = k := by
      have h1 : j ≤ k := by
        by_contra hc
        rcases hl with hl | hl
        · omega
        · have := getD_anti_le t hdec (show k + 1 ≤ j by omega) (show j < t.length by omega)
          linarith
      have h2 : k < j + 1 := by
        by_contra hc
        rcases hr with hr | hr
        · omega
        · have := getD_anti_le t hdec (show j + 1 ≤ k by omega) (show k < t.length by omega)
          linarith
      omega
    subst hjk
    rw [hseek]
    have hne : t.getD (j + 1) 0 - t.getD j 0 ≠ 0 := by intro h; linarith
    rw [midpoint_fraction _ _ hne]
    norm_num [clamp]

/-- C9 (witness): the 16 times 15, 14, ..., 0 and the query time 11.5. -/
theorem seek_linear_witness :
    2 ≤ NuBuffer.timeDemo.length ∧ 2 * NuBuffer.timeDemo.length < SIZE_MOD ∧
    NuBuffer.timeDemo.Pairwise (fun a b => a > b) ∧
    ((∃ l res, l + 1 < NuBuffer.timeDemo.length ∧
      NuBuffer.seekLoop NuBuffer.timeDemo (23 / 2) NuBuffer.timeDemo.length 0
        (usub NuBuffer.timeDemo.length 1) = some (l, l + 1) ∧
      NuBuffer.seek NuBuffer.timeDemo (23 / 2) SampleType.Linear = some res ∧
      res = (l : ℚ) + clamp ((23 / 2 - NuBuffer.timeDemo.getD l 0)
        / (NuBuffer.timeDemo.getD (l + 1) 0 - NuBuffer.timeDemo.getD l 0)) 0 1 ∧
      (NuBuffer.timeDemo.getD (NuBuffer.timeDemo.length - 1) 0 ≤ 23 / 2 →
        23 / 2 ≤ NuBuffer.timeDemo.getD 0 0 →
        NuBuffer.timeDemo.getD (l + 1) 0 ≤ 23 / 2 ∧ 23 / 2 ≤ NuBuffer.timeDemo.getD l 0) ∧
      0 ≤ res ∧ res ≤ (NuBuffer.timeDemo.length : ℚ) - 1 ∧
      (NuBuffer.timeDemo.getD 0 0 ≤ 23 / 2 → res = 0) ∧
      (23 / 2 ≤ NuBuffer.timeDemo.getD (NuBuffer.timeDemo.length - 1) 0 →
        res = (NuBuffer.timeDemo.length : ℚ) - 1)) ∧
    (∀ k, k < NuBuffer.timeDemo.length →
      NuBuffer.seek NuBuffer.timeDemo (NuBuffer.timeDemo.getD k 0) SampleType.Linear
        = some (k : ℚ)) ∧
    (∀ k, k + 1 < NuBuffer.timeDemo.length →
      NuBuffer.seek NuBuffer.timeDemo
        ((NuBuffer.timeDemo.getD k 0 + NuBuffer.timeDemo.getD (k + 1) 0) / 2)
        SampleType.Linear = some ((k : ℚ) + 1 / 2))) :=
  ⟨by decide, by decide, by decide,
    seek_linear NuBuffer.timeDemo (by decide) (by decide) (by decide) (23 / 2)⟩

/-! ## C10: `HistAntiJitter::process` -/

/-- C11 (counterexample): the filter of window 20 with 11 buckets over `[0, 10]` and margin
fraction 0.1, fed through its parent: the first push of 5 comes out as 1, not as 5. -/
theorem hist_first_push_clamped :
    Obj.outputs 3 Obj.histDemo 0 1 [5] = some [1] := by
  decide!

/-- C11 (amended): in the same scenario the margin is 2; of the eighteen pushes of 5 the first
two come out as 1 (5 is then in the rejected upper tail of the zero-filled window) and the
other sixteen as 5; the push of 0 comes out as 5 and the push of 10 as 6. -/
theorem hist_trimming_scenario :
    (HistAntiJitter.new 20 11 0 10 (1 / 10)).map (fun s => s.m_margin) = some 2 ∧
    Obj.outputs 3 Obj.histDemo 0 1 (List.replicate 18 5 ++ [0, 10])
      = some ([1, 1] ++ List.replicate 16 5 ++ [5, 6]) := by
  constructor
  · decide!
  · decide!

/-! ## C12: `Comparator` -/

theorem objs_set {α : Type} (h : Heap α) (n : Nat) (node node1 : ProcessChain α)
    (hn : h[n]? = some node) (ho : node1.obj = node.obj) :
    (h.set n node1).map (fun m => m.obj) = h.map (fun m => m.obj) := by
  apply List.ext_getElem?
  intro i
  simp only [List.getElem?_map, List.getElem?_set]
  by_cases e : n = i
  · subst e
    have hl : n < h.length := by
      by_contra hc
      rw [List.getElem?_eq_none (by omega)] at hn
      cases hn
    simp [hl, hn, ho]
  · simp [e]

/-- The method `setParent` changes links only: the derived members of all objects stay. -/
theorem setParent_objs {α : Type} (h h1 : Heap α) (this : Nat) (parent : Option Nat)
    (hs : setParent h this parent = some h1) :
    h1.map (fun m => m.obj) = h.map (fun m => m.obj) := by
  unfold setParent at hs
  cases hn : h[this]? with
  | none => rw [hn] at hs; cases hs
  | some node =>
    rw [hn] at hs
    simp only [ASSERT, Option.bind] at hs
    cases parent with
    | none => simp only at hs; cases hs; rfl
    | some p =>
      simp only at hs
      cases hp : h[p]? with
      | none => rw [hp] at hs; cases hs
      | some pnode =>
        rw [hp] at hs
        simp only at hs
        split at hs
        · cases hs
        · rename_i idx hidx
          split at hs
          · cases hs
          · rename_i pnode1 hp1
            cases hs
            rw [objs_set _ p pnode1
              { pnode1 with m_child := some this } hp1 rfl,
              objs_set h this node
                ⟨idx, some p, node.m_child, pnode.m_child, node.obj⟩ hn rfl]

/-- A constructed object sits at `h.length` with the members it was given. -/
theorem new_obj {α : Type} (h h1 : Heap α) (obj : α) (parent : Option Nat)
    (hs : ProcessChain.new h obj parent = some h1) :
    h1.length = h.length + 1 ∧ ∃ node, h1[h.length]? = some node ∧ node.obj = obj := by
  have := setParent_objs _ _ _ _ hs
  have hl : h1.length = h.length + 1 := by
    have := congrArg List.length this
    simpa using this
  refine ⟨hl, ?_⟩
  have hg := congrArg (fun l => l[h.length]?) this
  simp only [List.getElem?_map, List.map_append, List.map_cons, List.map_nil] at hg
  rw [List.getElem?_eq_getElem (by omega)] at hg ⊢
  refine ⟨_, rfl, ?_⟩
  simpa using hg

/-- C12: a `Comparator` with thresholds `low ≤ high` and previous output `p` gives the trait
zero for an input below `low`, the trait unit for an input above `high` and `p` for an input in
between; `process` returns that value and stores it as the new output, leaving the thresholds;
and after construction the output is the initial value, also after `setThreshold`. -/
theorem comparator_spec {T : Type} [LinearOrder T] (tr : Filter_T T) (p low high input : T)
    (hlh : low ≤ high) (h h1 : Heap Obj) (initial q lo hi x : ℚ) (parent : Option Nat)
    (hc : Comparator.create h initial parent = some h1) :
    (input < low → Comparator.process tr p low high input = tr.zero) ∧
    (high < input → Comparator.process tr p low high input = tr.unit) ∧
    (low ≤ input → input ≤ high → Comparator.process tr p low high input = p) ∧
    Obj.step h (Obj.Comparator q lo hi) x
      = some (Comparator.process Filter_T.float q lo hi x,
          Obj.Comparator (Comparator.process Filter_T.float q lo hi x) lo hi) ∧
    Obj.out h1 h.length = some initial ∧
    (Comparator.setThreshold h1 h.length lo hi).bind (fun h2 => Obj.out h2 h.length)
      = some initial ∧
    (Comparator.setThresholdSingle h1 h.length lo).bind (fun h2 => Obj.out h2 h.length)
      = some initial := by
  obtain ⟨hl, node, hg, ho⟩ := new_obj h h1 _ parent hc
  have hlt : h.length < h1.length := by omega
  refine ⟨?_, ?_, ?_, rfl, ?_, ?_, ?_⟩
  · intro h1; simp [Comparator.process, h1]
  · intro h2
    have : ¬ input < low := not_lt.mpr (le_trans hlh (le_of_lt h2))
    simp [Comparator.process, h2, this]
  · intro h1 h2
    simp [Comparator.process, not_lt.mpr h1, not_lt.mpr h2]
  · simp [Obj.out, hg, ho]
  · simp [Comparator.setThreshold, Obj.out, hg, ho, hlt]
  · simp [Comparator.setThresholdSingle, Obj.out, hg, ho, hlt]

/-- C12 (witness): thresholds -5 and 5 as in the filter test, previous output 1, input 7. -/
theorem comparator_spec_witness :
    ((-5 : ℚ) ≤ 5) ∧ Comparator.create [] 1 none = some [⟨0, none, none, none, Obj.Comparator 1 0 0⟩] ∧
    ((7 : ℚ) < -5 → Comparator.process Filter_T.float 1 (-5) 5 7 = Filter_T.float.zero) ∧
    ((5 : ℚ) < 7 → Comparator.process Filter_T.float 1 (-5) 5 7 = Filter_T.float.unit) ∧
    ((-5 : ℚ) ≤ 7 → (7 : ℚ) ≤ 5 → Comparator.process Filter_T.float 1 (-5) 5 7 = 1) ∧
    Obj.step [] (Obj.Comparator 1 (-5) 5) 7
      = some (Comparator.process Filter_T.float 1 (-5) 5 7,
          Obj.Comparator (Comparator.process Filter_T.float 1 (-5) 5 7) (-5) 5) ∧
    Obj.out [⟨0, none, none, none, Obj.Comparator 1 0 0⟩] ([] : Heap Obj).length = some 1 ∧
    (Comparator.setThreshold [⟨0, none, none, none, Obj.Comparator 1 0 0⟩]
      ([] : Heap Obj).length (-5) 5).bind (fun h2 => Obj.out h2 ([] : Heap Obj).length)
      = some 1 ∧
    (Comparator.setThresholdSingle [⟨0, none, none, none, Obj.Comparator 1 0 0⟩]
      ([] : Heap Obj).length (-5)).bind (fun h2 => Obj.out h2 ([] : Heap Obj).length)
      = some 1 :=
  ⟨by decide, by decide,
    comparator_spec Filter_T.float 1 (-5) 5 7 (by decide) []
      [⟨0, none, none, none, Obj.Comparator 1 0 0⟩] 1 1 (-5) 5 7 none (by decide)⟩

/-! ## C14: `Limiter` -/

/-- C14: a `Limiter` with bounds `low ≤ high` gives `low` for an input below `low`, `high` for
an input above `high` and the input otherwise; the output lies in `[low, high]` and equals the
input exactly when the input lies in `[low, high]`; `process` returns that value and stores it;
a constructed `Limiter` has the trait zero and unit as bounds, 0 and 1 for `int` and `float`. -/
theorem limiter_spec {T : Type} [LinearOrder T] (low high x : T) (hlh : low ≤ high)
    (h h1 : Heap Obj) (parent : Option Nat) (hc : Limiter.create h parent = some h1)
    (q lo hi y : ℚ) :
    (x < low → Limiter.process low high x = low) ∧
    (high < x → Limiter.process low high x = high) ∧
    (low ≤ x → x ≤ high → Limiter.process low high x = x) ∧
    low ≤ Limiter.process low high x ∧ Limiter.process low high x ≤ high ∧
    (Limiter.process low high x = x ↔ low ≤ x ∧ x ≤ high) ∧
    Obj.step h (Obj.Limiter q lo hi) y
      = some (Limiter.process lo hi y, Obj.Limiter (Limiter.process lo hi y) lo hi) ∧
    (∃ node, h1[h.length]? = some node ∧ node.obj = Obj.Limiter 0 0 1) ∧
    Filter_T.int.zero = 0 ∧ Filter_T.int.unit = 1 ∧
    Filter_T.float.zero = 0 ∧ Filter_T.float.unit = 1 := by
  obtain ⟨_, node, hg, ho⟩ := new_obj h h1 _ parent hc
  refine ⟨?_, ?_, ?_, ?_, ?_, ?_, rfl, ⟨node, hg, ho⟩, rfl, rfl, rfl, rfl⟩
  · intro h1; simp [Limiter.process, h1]
  · intro h2
    have : ¬ x < low := not_lt.mpr (le_trans hlh (le_of_lt h2))
    simp [Limiter.process, h2, this]
  · intro h1 h2
    simp [Limiter.process, not_lt.mpr h1, not_lt.mpr h2]
  · unfold Limiter.process
    split
    · exact le_refl _
    · split
      · exact hlh
      · rename_i h1 _; exact not_lt.mp h1
  · unfold Limiter.process
    split
    · exact hlh
    · split
      · exact le_refl _
      · rename_i _ h2; exact not_lt.mp h2
  · unfold Limiter.process
    constructor
    · intro he
      split at he
      · rename_i h1; rw [he] at h1; exact absurd h1 (lt_irrefl _)
      · split at he
        · rename_i h1 h2; rw [he] at h2; exact absurd h2 (lt_irrefl _)
        · rename_i h1 h2; exact ⟨not_lt.mp h1, not_lt.mp h2⟩
    · intro ⟨h1, h2⟩
      simp [not_lt.mpr h1, not_lt.mpr h2]

/-- C14 (witness): the limits -5 and 5 of the filter test and the input 7. -/
theorem limiter_spec_witness :
    ((-5 : ℚ) ≤ 5) ∧ Limiter.create [] none = some [⟨0, none, none, none, Obj.Limiter 0 0 1⟩] ∧
    Limiter.process (-5 : ℚ) 5 7 = 5 ∧
    (((7 : ℚ) < -5 → Limiter.process (-5 : ℚ) 5 7 = -5) ∧
    ((5 : ℚ) < 7 → Limiter.process (-5 : ℚ) 5 7 = 5) ∧
    ((-5 : ℚ) ≤ 7 → (7 : ℚ) ≤ 5 → Limiter.process (-5 : ℚ) 5 7 = 7) ∧
    (-5 : ℚ) ≤ Limiter.process (-5 : ℚ) 5 7 ∧ Limiter.process (-5 : ℚ) 5 7 ≤ 5 ∧
    (Limiter.process (-5 : ℚ) 5 7 = 7 ↔ (-5 : ℚ) ≤ 7 ∧ (7 : ℚ) ≤ 5) ∧
    Obj.step [] (Obj.Limiter 0 0 1) 3
      = some (Limiter.process 0 1 3, Obj.Limiter (Limiter.process 0 1 3) 0 1) ∧
    (∃ node, ([⟨0, none, none, none, Obj.Limiter 0 0 1⟩] : Heap Obj)[([] : Heap Obj).length]?
      = some node ∧ node.obj = Obj.Limiter 0 0 1) ∧
    Filter_T.int.zero = 0 ∧ Filter_T.int.unit = 1 ∧
    Filter_T.float.zero = 0 ∧ Filter_T.float.unit = 1) :=
  ⟨by decide, by decide, by decide,
    limiter_spec (-5 : ℚ) 5 7 (by decide) [] [⟨0, none, none, none, Obj.Limiter 0 0 1⟩] none
      (by decide) 0 0 1 3⟩

/-! ## C15: sampling at integral positions and at 0.5 -/

theorem step_simple_heap (h : Heap Obj) (o : Obj) (x : ℚ) (hs : o.simple = true) :
    Obj.step h o x = Obj.step [] o x := by
  cases o <;> first | rfl | (simp [Obj.simple] at hs)

/-- The `process` of a simple object returns, and the object stays simple. -/
theorem step_simple_total (o : Obj) (x : ℚ) (hs : o.simple = true) :
    ∃ r o1, Obj.step [] o x = some (r, o1) ∧ o1.simple = true := by
  cases o <;> simp [Obj.simple] at hs
  case Buffer d =>
    cases d with
    | nil => simp at hs
    | cons a t => exact ⟨x, Obj.Buffer (x :: (a :: t).dropLast), rfl, rfl⟩
  case NuBuffer d t =>
    cases d with
    | nil => simp at hs
    | cons a t => exact ⟨x, Obj.NuBuffer (x :: (a :: t).dropLast) _, rfl, rfl⟩
  all_goals exact ⟨_, _, rfl, rfl⟩

theorem foldl_max_spec (xs : List ℚ) :
    ∀ x : ℚ, xs.foldl (fun largest y => if largest < y then y else largest) x ∈ x :: xs ∧
      ∀ y ∈ x :: xs, y ≤ xs.foldl (fun largest y => if largest < y then y else largest) x := by
  induction xs with
  | nil => intro x; simp
  | cons a t ih =>
    intro x
    simp only [List.foldl_cons]
    obtain ⟨h1, h2⟩ := ih (if x < a then a else x)
    constructor
    · rcases List.mem_cons.mp h1 with h | h
      · rw [h]
        split
        · simp
        · simp
      · simp [h]
    · intro y hy
      have hx : x ≤ if x < a then a else x := by
        split
        · rename_i hlt; exact le_of_lt hlt
        · exact le_refl _
      have ha : a ≤ if x < a then a else x := by
        split
        · exact le_refl _
        · rename_i hlt; exact not_lt.mp hlt
      have hm := h2 (if x < a then a else x) (List.mem_cons_self _ _)
      rcases List.mem_cons.mp hy with h | h
      · rw [h]; exact le_trans hx hm
      · rcases List.mem_cons.mp h with h | h
        · rw [h]; exact le_trans ha hm
        · exact h2 y (List.mem_cons_of_mem _ h)

theorem foldl_min_spec (xs : List ℚ) :
    ∀ x : ℚ, xs.foldl (fun smallest y => if y < smallest then y else smallest) x ∈ x :: xs ∧
      ∀ y ∈ x :: xs, xs.foldl (fun smallest y => if y < smallest then y else smallest) x ≤ y := by
  induction xs with
  | nil => intro x; simp
  | cons a t ih =>
    intro x
    simp only [List.foldl_cons]
    obtain ⟨h1, h2⟩ := ih (if a < x then a else x)
    constructor
    · rcases List.mem_cons.mp h1 with h | h
      · rw [h]
        split
        · simp
        · simp
      · simp [h]
    · intro y hy
      have hx : (if a < x then a else x) ≤ x := by
        split
        · rename_i hlt; exact le_of_lt hlt
        · exact le_refl _
      have ha : (if a < x then a else x) ≤ a := by
        split
        · exact le_refl _
        · rename_i hlt; exact not_lt.mp hlt
      have hm := h2 (if a < x then a else x) (List.mem_cons_self _ _)
      rcases List.mem_cons.mp hy with h | h
      · rw [h]; exact le_trans hm hx
      · rcases List.mem_cons.mp h with h | h
        · rw [h]; exact le_trans hm ha
        · exact h2 y (List.mem_cons_of_mem _ h)

/-- The value of `*std::max_element` is an element and bounds all elements. -/
theorem maxElement_spec (d : List ℚ) (m : ℚ) (h : maxElement d = some m) :
    m ∈ d ∧ ∀ y ∈ d, y ≤ m := by
  cases d with
  | nil => cases h
  | cons x xs =>
    simp only [maxElement, Option.some.injEq] at h
    rw [← h]
    exact foldl_max_spec xs x

/-- The value of `*std::min_element` is an element and is below all elements. -/
theorem minElement_spec (d : List ℚ) (m : ℚ) (h : minElement d = some m) :
    m ∈ d ∧ ∀ y ∈ d, m ≤ y := by
  cases d with
  | nil => cases h
  | cons x xs =>
    simp only [minElement, Option.some.injEq] at h
    rw [← h]
    exact foldl_min_spec xs x

theorem createWithInput_root (o f : Obj) (n : Nat) :
    Filter.createWithInput [⟨0, none, none, none, o⟩] f n (some 0)
      = some (Obj.holdHeap o f (List.replicate n 0)) := by
  rfl

theorem holdHeap_links (o f : Obj) (d : List ℚ) :
    next (Obj.holdHeap o f d) 0 = none ∧ first (Obj.holdHeap o f d) 0 = some 2 ∧
    next (Obj.holdHeap o f d) 2 = none ∧ first (Obj.holdHeap o f d) 2 = some 1 ∧
    next (Obj.holdHeap o f d) 1 = none ∧ first (Obj.holdHeap o f d) 1 = none :=
  ⟨rfl, rfl, rfl, rfl, rfl, rfl⟩

/-- One push into the parent of a filter with a member `m_input`, for a filter whose `process`
is given by `g` on the deque of `m_input`. -/
theorem push_holdHeap (o o1 f f1 : Obj) (x r y : ℚ) (d : List ℚ) (hs : o.simple = true)
    (hstep : Obj.step [] o x = some (r, o1)) (hd : d ≠ [])
    (hf : ∀ q, Obj.process (Obj.holdHeap q f (r :: d.dropLast)) 1 r
      = some (y, Obj.holdHeap q f1 (r :: d.dropLast))) :
    Obj.push 3 (Obj.holdHeap o f d) 0 x
      = some (r, Obj.holdHeap o1 f1 (r :: d.dropLast), [(0, x), (2, r), (1, r)]) := by
  obtain ⟨a, t, rfl⟩ : ∃ a t, d = a :: t := by
    cases d with
    | nil => exact absurd rfl hd
    | cons a t => exact ⟨a, t, rfl⟩
  have e0 : Obj.process (Obj.holdHeap o f (a :: t)) 0 x
      = some (r, Obj.holdHeap o1 f (a :: t)) := by
    simp only [Obj.process, Obj.holdHeap, List.getElem?_cons_zero, step_simple_heap _ o x hs,
      hstep, Option.map]
    rfl
  have e2 : Obj.process (Obj.holdHeap o1 f (a :: t)) 2 r
      = some (r, Obj.holdHeap o1 f (r :: (a :: t).dropLast)) := rfl
  have l := holdHeap_links
  have c1 : ProcessChain.push Obj.process 1 (Obj.holdHeap o1 f (r :: (a :: t).dropLast)) 1 r
      = some (y, Obj.holdHeap o1 f1 (r :: (a :: t).dropLast), [(1, r)]) := by
    rw [ProcessChain.push, hf o1]
    simp only [(l _ _ _).2.2.2.2.1, (l _ _ _).2.2.2.2.2, pushOpt]
    rfl
  have c2 : ProcessChain.push Obj.process 2 (Obj.holdHeap o1 f (a :: t)) 2 r
      = some (r, Obj.holdHeap o1 f1 (r :: (a :: t).dropLast), [(2, r), (1, r)]) := by
    rw [ProcessChain.push, e2]
    simp only [(l _ _ _).2.2.1, (l _ _ _).2.2.2.1, pushOpt, c1, Option.map]
    rfl
  unfold Obj.push
  rw [ProcessChain.push, e0]
  simp only [(l _ _ _).1, (l _ _ _).2.1, pushOpt, c2, Option.map]
  rfl
/-- The pushes into the parent of a filter with a member `m_input`, whose `process` stores the
value `ext` of the deque of `m_input`. -/
theorem pushAll_holdHeap (kind : ℚ → Obj) (ext : List ℚ → Option ℚ)
    (hk : ∀ q m r t, ∃ m1, ext (r :: t) = some m1 ∧
      Obj.process (Obj.holdHeap q (kind m) (r :: t)) 1 r
        = some (m1, Obj.holdHeap q (kind m1) (r :: t)))
    (xs : List ℚ) :
    ∀ o m d, o.simple = true → d ≠ [] → ext d = some m →
      ∃ rs o1 m1 d1, Obj.run o xs = some (rs, o1) ∧ Buffer.processAll d rs = some d1 ∧
        Obj.pushAll 3 (Obj.holdHeap o (kind m) d) 0 xs = some (Obj.holdHeap o1 (kind m1) d1) ∧
        ext d1 = some m1 := by
  induction xs with
  | nil =>
    intro o m d _ _ hm
    exact ⟨[], o, m, d, rfl, rfl, rfl, hm⟩
  | cons x xs ih =>
    intro o m d hs hd hm
    obtain ⟨r, o2, hstep, hs2⟩ := step_simple_total o x hs
    obtain ⟨m2, hm2, hp⟩ := hk o2 m r d.dropLast
    have hpush := push_holdHeap o o2 (kind m) (kind m2) x r m2 d hs hstep hd
      (fun q => by
        obtain ⟨m3, hm3, hp3⟩ := hk q m r d.dropLast
        rw [hm2] at hm3
        cases hm3
        exact hp3)
    obtain ⟨rs, o1, m1, d1, hrun, hproc, hall, hext⟩ :=
      ih o2 m2 (r :: d.dropLast) hs2 (List.cons_ne_nil _ _) hm2
    have hbp : Buffer.process d r = some (r, r :: d.dropLast) := by
      cases d with
      | nil => exact absurd rfl hd
      | cons a t => rfl
    refine ⟨r :: rs, o1, m1, d1, ?_, ?_, ?_, hext⟩
    · simp only [Obj.run, hstep, Option.bind, hrun, Option.map]
    · simp only [Buffer.processAll, hbp, Option.bind, hproc]
    · simp only [Obj.pushAll, hpush, Option.bind, hall]

theorem maxElement_replicate (n : Nat) (hn : 1 ≤ n) :
    maxElement (List.replicate n (0 : ℚ)) = some 0 := by
  cases hm : maxElement (List.replicate n (0 : ℚ)) with
  | none =>
    obtain ⟨k, rfl⟩ : ∃ k, n = k + 1 := ⟨n - 1, by omega⟩
    simp [List.replicate, maxElement] at hm
  | some m =>
    have := (maxElement_spec _ m hm).1
    rw [List.eq_of_mem_replicate this]

theorem minElement_replicate (n : Nat) (hn : 1 ≤ n) :
    minElement (List.replicate n (0 : ℚ)) = some 0 := by
  cases hm : minElement (List.replicate n (0 : ℚ)) with
  | none =>
    obtain ⟨k, rfl⟩ : ∃ k, n = k + 1 := ⟨n - 1, by omega⟩
    simp [List.replicate, minElement] at hm
  | some m =>
    have := (minElement_spec _ m hm).1
    rw [List.eq_of_mem_replicate this]

/-- C13: a `HoldHigh` (`HoldLow`) of window size `n ≥ 1` constructed under a root parent whose
`process` reads no other object: after the pushes `xs` into the parent, whose outputs are `rs`,
the window of the filter is the first `n` elements of `rs` reversed followed by zeros, and the
output of the filter is the maximum (minimum) of the window: an element of it that bounds all
its elements. -/
theorem hold_extremum (parent : Obj) (hs : parent.simple = true) (n : Nat) (hn : 1 ≤ n)
    (xs : List ℚ) :
    ∃ rs o1 mHigh mLow d,
      Obj.run parent xs = some (rs, o1) ∧
      d = (rs.reverse ++ List.replicate n 0).take n ∧
      (HoldHigh.create [⟨0, none, none, none, parent⟩] n (some 0)).bind
          (fun h => Obj.pushAll 3 h 0 xs)
        = some (Obj.holdHeap o1 (Obj.HoldHigh mHigh 2) d) ∧
      (HoldLow.create [⟨0, none, none, none, parent⟩] n (some 0)).bind
          (fun h => Obj.pushAll 3 h 0 xs)
        = some (Obj.holdHeap o1 (Obj.HoldLow mLow 2) d) ∧
      Obj.out (Obj.holdHeap o1 (Obj.HoldHigh mHigh 2) d) 1 = some mHigh ∧
      Obj.out (Obj.holdHeap o1 (Obj.HoldLow mLow 2) d) 1 = some mLow ∧
      mHigh ∈ d ∧ (∀ y ∈ d, y ≤ mHigh) ∧ mLow ∈ d ∧ (∀ y ∈ d, mLow ≤ y) := by
  have hne : List.replicate n (0 : ℚ) ≠ [] := by
    obtain ⟨k, rfl⟩ : ∃ k, n = k + 1 := ⟨n - 1, by omega⟩
    simp [List.replicate]
  obtain ⟨rs, o1, mH, d1, hrun, hproc, hall, hext⟩ :=
    pushAll_holdHeap (fun m => Obj.HoldHigh m 2) maxElement
      (fun q m r t => ⟨_, rfl, rfl⟩) xs parent 0 (List.replicate n 0) hs hne
      (maxElement_replicate n hn)
  obtain ⟨rs2, o2, mL, d2, hrun2, hproc2, hall2, hext2⟩ :=
    pushAll_holdHeap (fun m => Obj.HoldLow m 2) minElement
      (fun q m r t => ⟨_, rfl, rfl⟩) xs parent 0 (List.replicate n 0) hs hne
      (minElement_replicate n hn)
  rw [hrun] at hrun2
  cases hrun2
  rw [hproc] at hproc2
  cases hproc2
  have hd : d1 = (rs.reverse ++ List.replicate n 0).take n := by
    have := processAll_eq (0 : ℚ) n hn rs []
    simp only [List.reverse_nil, List.nil_append, List.take_replicate, Nat.min_self] at this
    rw [this] at hproc
    exact (Option.some.inj hproc).symm
  have hH := maxElement_spec d1 mH hext
  have hL := minElement_spec d1 mL hext2
  refine ⟨rs, o1, mH, mL, d1, hrun, hd, ?_, ?_, rfl, rfl, hH.1, hH.2, hL.1, hL.2⟩
  · simp only [HoldHigh.create, List.length_singleton, createWithInput_root, Option.bind]
    exact hall
  · simp only [HoldLow.create, List.length_singleton, createWithInput_root, Option.bind]
    exact hall2

/-- C13 (witness): a `Limiter` parent with limits 0 and 1, window size 3, the pushes 5, -2. -/
theorem hold_extremum_witness :
    (Obj.Limiter 0 0 1).simple = true ∧ 1 ≤ 3 ∧
    ∃ rs o1 mHigh mLow d,
      Obj.run (Obj.Limiter 0 0 1) [5, -2] = some (rs, o1) ∧
      d = (rs.reverse ++ List.replicate 3 0).take 3 ∧
      (HoldHigh.create [⟨0, none, none, none, Obj.Limiter 0 0 1⟩] 3 (some 0)).bind
          (fun h => Obj.pushAll 3 h 0 [5, -2])
        = some (Obj.holdHeap o1 (Obj.HoldHigh mHigh 2) d) ∧
      (HoldLow.create [⟨0, none, none, none, Obj.Limiter 0 0 1⟩] 3 (some 0)).bind
          (fun h => Obj.pushAll 3 h 0 [5, -2])
        = some (Obj.holdHeap o1 (Obj.HoldLow mLow 2) d) ∧
      Obj.out (Obj.holdHeap o1 (Obj.HoldHigh mHigh 2) d) 1 = some mHigh ∧
      Obj.out (Obj.holdHeap o1 (Obj.HoldLow mLow 2) d) 1 = some mLow ∧
      mHigh ∈ d ∧ (∀ y ∈ d, y ≤ mHigh) ∧ mLow ∈ d ∧ (∀ y ∈ d, mLow ≤ y) :=
  ⟨by decide, by decide, hold_extremum (Obj.Limiter 0 0 1) (by decide) 3 (by decide) [5, -2]⟩

/-! ## C16: the order of the children -/

/-- The effect of `setParent` with a parent other than the object itself. -/
theorem setParent_some {α : Type} (h : Heap α) (this p : Nat) (node pnode : ProcessChain α)
    (hn : h[this]? = some node) (hp : h[p]? = some pnode) (hne : this ≠ p) (idx : Nat)
    (hidx : (pnode.m_child = none ∧ idx = 0) ∨
      ∃ s nd, pnode.m_child = some s ∧ h[s]? = some nd ∧ idx = uadd nd.m_index 1) :
    setParent h this (some p)
      = some ((h.set this ⟨idx, some p, node.m_child, pnode.m_child, node.obj⟩).set p
          { pnode with m_child := some this }) := by
  have e : ∀ n1 : ProcessChain α, (h.set this n1)[p]? = some pnode := by
    intro n1
    rw [List.getElem?_set_ne hne, hp]
  rcases hidx with ⟨h1, h2⟩ | ⟨s, nd, h1, h2, h3⟩
  · subst h2
    simp only [setParent, hn, ASSERT, Option.bind, hp, h1, e]
  · subst h3
    simp only [setParent, hn, ASSERT, Option.bind, hp, h1, h2, Option.map, e]

theorem attach_step {α : Type} (h : Heap α) (p c : Nat) (done : List Nat)
    (ha : AttachedTo h p done) (hc : c < h.length) (hcp : c ≠ p) (hcd : c ∉ done)
    (hpd : p ∉ done) (hlen : done.length + 1 < SIZE_MOD) :
    ∃ h1, setParent h c (some p) = some h1 ∧ AttachedTo h1 p (done ++ [c]) ∧
      h1.length = h.length ∧ ((∀ node ∈ h, node.m_parent = none → node.m_index = 0) →
        ∀ node ∈ h1, node.m_parent = none → node.m_index = 0) := by
  obtain ⟨⟨pn, hp, hch⟩, hall⟩ := ha
  have hg : h[c]? = some h[c] := List.getElem?_eq_getElem hc
  have hidx : (pn.m_child = none ∧ done.length = 0) ∨
      ∃ s nd, pn.m_child = some s ∧ h[s]? = some nd ∧ done.length = uadd nd.m_index 1 := by
    rw [hch]
    rcases List.eq_nil_or_concat done with hd | ⟨l, a, hd⟩
    · subst hd; exact Or.inl ⟨rfl, rfl⟩
    · subst hd
      obtain ⟨nd, hnd, _, hi, _⟩ := hall l.length a (by simp)
      refine Or.inr ⟨a, nd, by simp, hnd, ?_⟩
      rw [hi]
      simp only [List.concat_eq_append, List.length_append, List.length_singleton] at hlen ⊢
      unfold uadd SIZE_MOD at *
      omega
  have hpl : p < h.length := by
    by_contra hc2
    rw [List.getElem?_eq_none (by omega)] at hp
    cases hp
  have hset := setParent_some h c p h[c] pn hg hp hcp done.length hidx
  have hp1 : ((h.set c ⟨done.length, some p, h[c].m_child, pn.m_child, h[c].obj⟩).set p
      { pn with m_child := some c })[p]? = some { pn with m_child := some c } := by
    rw [List.getElem?_set_self]
    simp [hpl]
  have hlast : ({ pn with m_child := some c } : ProcessChain α).m_child
      = (done ++ [c]).getLast? := by simp
  refine ⟨_, hset, ⟨⟨_, hp1, hlast⟩, ?_⟩, by simp, ?_⟩
  · intro i x hix
    by_cases hi : i < done.length
    · rw [List.getElem?_append_left hi] at hix
      obtain ⟨nd, hnd, h1, h2, h3⟩ := hall i x hix
      have hxd : x ∈ done := List.getElem?_mem hix
      have hxc : c ≠ x := fun e => hcd (e ▸ hxd)
      have hxp : p ≠ x := fun e => hpd (e ▸ hxd)
      refine ⟨nd, ?_, h1, h2, ?_⟩
      · rw [List.getElem?_set_ne hxp, List.getElem?_set_ne hxc, hnd]
      · rw [h3]
        cases i with
        | zero => rfl
        | succ k =>
          simp only
          rw [List.getElem?_append_left (by omega)]
    · have hi2 : i = done.length := by
        have : i < (done ++ [c]).length := by
          by_contra hc2
          rw [List.getElem?_eq_none (by omega)] at hix
          cases hix
        simp at this
        omega
      subst hi2
      simp only [List.getElem?_concat_length, Option.some.injEq] at hix
      subst hix
      refine ⟨⟨done.length, some p, h[c].m_child, pn.m_child, h[c].obj⟩, ?_, rfl, rfl, ?_⟩
      · rw [List.getElem?_set_ne (Ne.symm hcp)]
        simp [List.getElem?_set, hc]
      · simp only [hch]
        rcases List.eq_nil_or_concat done with hd | ⟨l, a, hd⟩
        · subst hd; rfl
        · subst hd
          have e1 : (l.concat a).length = l.length + 1 := by simp
          have e2 : (l.concat a ++ [c])[l.length]? = some a := by
            rw [List.concat_eq_append, List.append_assoc,
              List.getElem?_append_right (le_refl _)]
            simp
          rw [e1]
          simp only [e2]
          simp
  · intro hinv node hm hpar
    rcases List.mem_or_eq_of_mem_set hm with hm | rfl
    · rcases List.mem_or_eq_of_mem_set hm with hm | rfl
      · exact hinv node hm hpar
      · simp at hpar
    · exact hinv pn (List.getElem?_mem hp) hpar

theorem attachAll_spec {α : Type} (p : Nat) (cs : List Nat) :
    ∀ (done : List Nat) (h : Heap α), AttachedTo h p done →
      (∀ c ∈ cs, c < h.length ∧ c ≠ p) → (done ++ cs).Nodup → p ∉ done →
      (done ++ cs).length < SIZE_MOD →
      ∃ h1, attachAll h p cs = some h1 ∧ AttachedTo h1 p (done ++ cs) ∧
        ((∀ node ∈ h, node.m_parent = none → node.m_index = 0) →
          ∀ node ∈ h1, node.m_parent = none → node.m_index = 0) := by
  induction cs with
  | nil =>
    intro done h ha _ _ _ _
    exact ⟨h, rfl, by simpa using ha, fun hinv => hinv⟩
  | cons c cs ih =>
    intro done h ha hcs hnd hpd hlen
    have hc := hcs c (List.mem_cons_self _ _)
    have hcd : c ∉ done := by
      intro hm
      have := List.nodup_append.mp hnd
      exact this.2.2 hm (List.mem_cons_self _ _)
    obtain ⟨h1, hs, ha1, hl1, hinv1⟩ := attach_step h p c done ha hc.1 hc.2 hcd hpd
      (by simp only [List.length_append, List.length_cons] at hlen; omega)
    obtain ⟨h2, hs2, ha2, hinv2⟩ := ih (done ++ [c]) h1 ha1
      (fun x hx => by rw [hl1]; exact hcs x (List.mem_cons_of_mem _ hx))
      (by simpa using hnd)
      (by
        intro hm
        rcases List.mem_append.mp hm with hm | hm
        · exact hpd hm
        · simp at hm
          exact hc.2 hm.symm)
      (by simpa using hlen)
    refine ⟨h2, ?_, by simpa using ha2, fun hinv => hinv2 (hinv1 hinv)⟩
    simp only [attachAll, hs, Option.bind, hs2]

theorem siblings_spec {α : Type} (h : Heap α) (p : Nat) (cs : List Nat)
    (ha : AttachedTo h p cs) :
    ∀ j, j < cs.length → siblings h (j + 1) cs[j]? = some (cs.take (j + 1)).reverse := by
  intro j
  induction j with
  | zero =>
    intro hjl
    obtain ⟨nd, hnd, _, _, hsib⟩ := ha.2 0 cs[0] (List.getElem?_eq_getElem hjl)
    have hsib0 : nd.m_simbling = none := hsib
    have hnext : next h cs[0] = none := by
      simp only [next, hnd, Option.bind, hsib0]
    rw [List.getElem?_eq_getElem hjl, siblings, hnext, siblings]
    rw [List.take_succ, List.getElem?_eq_getElem hjl]
    simp
  | succ j ih =>
    intro hjl
    obtain ⟨nd, hnd, _, _, hsib⟩ := ha.2 (j + 1) cs[j + 1] (List.getElem?_eq_getElem hjl)
    have hsib0 : nd.m_simbling = cs[j]? := hsib
    have hnext : next h cs[j + 1] = cs[j]? := by
      simp only [next, hnd, Option.bind, hsib0]
    have e : cs.take (j + 1 + 1) = cs.take (j + 1) ++ [cs[j + 1]] := by
      rw [List.take_succ, List.getElem?_eq_getElem hjl]
      rfl
    rw [List.getElem?_eq_getElem hjl, siblings, hnext, ih (by omega), e, List.reverse_append]
    rfl

/-- C16: after the objects `cs` (distinct, other than `p`) are attached in order to an object
`p` without children, the first child of `p` is the last of `cs`, following `next()` from it
visits `cs` in reverse and then ends, and every object of `cs` has `p` as parent and its
position in `cs` as index; if every object without parent had index 0 before, so it is after;
and a constructed object without parent has index 0. -/
theorem attach_order {α : Type} (h : Heap α) (p : Nat) (cs : List Nat) (pn : ProcessChain α)
    (hp : h[p]? = some pn) (hchild : pn.m_child = none)
    (hcs : ∀ c ∈ cs, c < h.length ∧ c ≠ p) (hnd : cs.Nodup) (hlen : cs.length < SIZE_MOD)
    (obj : α) :
    (∃ h1, attachAll h p cs = some h1 ∧ first h1 p = cs.getLast? ∧
      siblings h1 cs.length (first h1 p) = some cs.reverse ∧
      (∀ i c, cs[i]? = some c → index h1 c = some i ∧ parent h1 c = some p) ∧
      ((∀ node ∈ h, node.m_parent = none → node.m_index = 0) →
        ∀ node ∈ h1, node.m_parent = none → node.m_index = 0)) ∧
    ProcessChain.new h obj none = some (h ++ [⟨0, none, none, none, obj⟩]) ∧
    index (h ++ [⟨0, none, none, none, obj⟩]) h.length = some 0 := by
  refine ⟨?_, new_root h obj, ?_⟩
  · have h0 : AttachedTo h p [] := ⟨⟨pn, hp, hchild⟩, fun i c hic => by simp at hic⟩
    obtain ⟨h1, hs, ha, hinv⟩ := attachAll_spec p cs [] h h0 hcs (by simpa using hnd)
      (by simp) (by simpa using hlen)
    rw [List.nil_append] at ha
    have hfirst : first h1 p = cs.getLast? := by
      obtain ⟨pn1, hp1, hc1⟩ := ha.1
      simp only [first, hp1, Option.bind, hc1]
    refine ⟨h1, hs, hfirst, ?_, ?_, hinv⟩
    · rw [hfirst]
      rcases Nat.eq_zero_or_pos cs.length with h0 | hpos
      · have : cs = [] := List.length_eq_zero.mp h0
        subst this
        rfl
      · obtain ⟨k, hk⟩ : ∃ k, cs.length = k + 1 := ⟨cs.length - 1, by omega⟩
        have := siblings_spec h1 p cs ha k (by omega)
        rw [List.getLast?_eq_getElem?, hk]
        simp only [Nat.add_sub_cancel]
        rw [this, ← hk, List.take_length]
    · intro i c hic
      obtain ⟨nd, hnd1, hpar, hidx, _⟩ := ha.2 i c hic
      simp only [index, parent, hnd1, Option.map, Option.bind, hpar, hidx, and_self]
  · simp [index]

/-- C16 (witness): the objects 2, 3, 4 attached in this order to the object 1. -/
theorem attach_order_witness :
    (∃ h1, attachAll attachDemo 1 [2, 3, 4] = some h1 ∧ first h1 1 = [2, 3, 4].getLast? ∧
      siblings h1 [2, 3, 4].length (first h1 1) = some [2, 3, 4].reverse ∧
      (∀ i c, [2, 3, 4][i]? = some c → index h1 c = some i ∧ parent h1 c = some 1) ∧
      ((∀ node ∈ attachDemo, node.m_parent = none → node.m_index = 0) →
        ∀ node ∈ h1, node.m_parent = none → node.m_index = 0)) ∧
    ProcessChain.new attachDemo (Obj.Filter 0) none
      = some (attachDemo ++ [⟨0, none, none, none, Obj.Filter 0⟩]) ∧
    index (attachDemo ++ [⟨0, none, none, none, Obj.Filter 0⟩]) attachDemo.length = some 0 :=
  attach_order attachDemo 1 [2, 3, 4] ⟨0, none, none, none, Obj.Filter 0⟩ rfl rfl
    (by decide) (by decide) (by decide) (Obj.Filter 0)

/-! ## C17: construction of a `Buffer` of capacity below 2 -/

/-- C17 (counterexample): `Buffer<float> b(1)` is constructed, with a window of one zero, and
the push of 4 into it returns 4 and leaves the window `[4]`; `Buffer<float> b(0)` is
constructed too, with an empty window. -/
theorem buffer_capacity_one_constructed :
    Buffer.create [] 1 none = some [⟨0, none, none, none, Obj.Buffer [0]⟩] ∧
    (Buffer.create [] 1 none).bind (fun h => Obj.push 1 h 0 4)
      = some (4, [⟨0, none, none, none, Obj.Buffer [4]⟩], [(0, 4)]) ∧
    Buffer.create [] 0 none = some [⟨0, none, none, none, Obj.Buffer []⟩] := by
  decide

/-- C17 (amended): the constructor `Buffer(size, parent)` succeeds wherever the base constructor
`ProcessChain(parent)` does, whatever the size: without parent it always gives a window of
`size` zeros. A window of one or more elements takes pushes; on the empty window of capacity 0
`process` is undefined. -/
theorem buffer_create_any_size (h : Heap Obj) (size : Nat) (parent : Option Nat) (x : ℚ) :
    Buffer.create h size parent
      = ProcessChain.new h (Obj.Buffer (List.replicate size 0)) parent ∧
    Buffer.create h size none
      = some (h ++ [⟨0, none, none, none, Obj.Buffer (List.replicate size 0)⟩]) ∧
    Buffer.process (Buffer.new Buffer_T.float (size + 1)) x
      = some (x, x :: List.replicate size 0) ∧
    Buffer.process (Buffer.new Buffer_T.float 0) x = none := by
  have e : Buffer.create h size parent
      = ProcessChain.new h (Obj.Buffer (List.replicate size 0)) parent := by
    simp only [Buffer.create, ASSERT, Buffer.new, Buffer_T.float]
    cases ProcessChain.new h (Obj.Buffer (List.replicate size 0)) parent <;> rfl
  refine ⟨e, ?_, ?_, rfl⟩
  · simp only [Buffer.create, ASSERT, Buffer.new, Buffer_T.float, new_root]
    rfl
  · simp only [Buffer.new, Buffer.process, List.replicate_succ, Buffer_T.float]
    have : ((0 : ℚ) :: List.replicate size 0).dropLast = List.replicate size 0 := by
      rw [← List.replicate_succ, List.dropLast_eq_take]
      simp
    rw [this]

/-! ## C18: `setParent` on an object that has a parent -/

/-- C18 (counterexample): the object 4 is the only child of 0, and 1 has the children 3 and 2.
The call `setParent` of 4 with the parent 1 returns; after it the parent of 4 is 1, its next
sibling is 3, its index is 2, the first child of 1 is 4, and the first child of 0 is still 4, so
that the children of 0 read 4, 3, 2. -/
theorem reattach_example :
    parent reattachDemo 4 = some 0 ∧ next reattachDemo 4 = none ∧
    index reattachDemo 4 = some 0 ∧ siblings reattachDemo 5 (first reattachDemo 0) = some [4] ∧
    siblings reattachDemo 5 (first reattachDemo 1) = some [3, 2] ∧
    ∃ h1, setParent reattachDemo 4 (some 1) = some h1 ∧
      parent h1 4 = some 1 ∧ next h1 4 = some 3 ∧ index h1 4 = some 2 ∧
      siblings h1 5 (first h1 0) = some [4, 3, 2] ∧
      siblings h1 5 (first h1 1) = some [4, 3, 2] := by
  refine ⟨by decide, by decide, by decide, by decide, by decide, ?_⟩
  refine ⟨(setParent reattachDemo 4 (some 1)).getD [], by decide, by decide, by decide,
    by decide, by decide, by decide⟩

/-- C18 (amended): `setParent` with a parent `p` on an object that has a parent `q` (other than
`p`) returns as on an object without parent: `p` becomes the parent, the next sibling is the
former first child of `p`, the index is 0 when `p` had no child and one more than the index of
that child otherwise, and the object becomes the first child of `p`; the first child of `q` is
not changed, so the object stays in the child list of `q` when it was its first child. -/
theorem reattach_relinks {α : Type} (h : Heap α) (this p q : Nat)
    (node pnode : ProcessChain α)
    (hn : h[this]? = some node) (hq : node.m_parent = some q) (hp : h[p]? = some pnode)
    (hne : this ≠ p) (hqp : q ≠ p) (hqt : q ≠ this) (idx : Nat)
    (hidx : (pnode.m_child = none ∧ idx = 0) ∨
      ∃ s nd, pnode.m_child = some s ∧ h[s]? = some nd ∧ idx = uadd nd.m_index 1) :
    parent h this = some q ∧
    ∃ h1, setParent h this (some p) = some h1 ∧ parent h1 this = some p ∧
      next h1 this = first h p ∧ index h1 this = some idx ∧ first h1 p = some this ∧
      first h1 q = first h q := by
  have hpl : p < h.length := by
    by_contra hc
    rw [List.getElem?_eq_none (by omega)] at hp
    cases hp
  have htl : this < h.length := by
    by_contra hc
    rw [List.getElem?_eq_none (by omega)] at hn
    cases hn
  refine ⟨by simp only [parent, hn, Option.bind, hq], _,
    setParent_some h this p node pnode hn hp hne idx hidx, ?_, ?_, ?_, ?_, ?_⟩
  · simp [parent, List.getElem?_set, hne, Ne.symm hne, htl]
  · simp [next, first, List.getElem?_set, hne, Ne.symm hne, htl, hp]
  · simp [index, List.getElem?_set, hne, Ne.symm hne, htl]
  · simp [first, List.getElem?_set, hpl]
  · simp [first, List.getElem?_set, hqp, Ne.symm hqp, hqt, Ne.symm hqt]

/-- C18 (witness): the object 4 of `reattachDemo`, child of 0, attached to 1, whose first child
3 has the index 1. -/
theorem reattach_relinks_witness :
    parent reattachDemo 4 = some 0 ∧
    ∃ h1, setParent reattachDemo 4 (some 1) = some h1 ∧ parent h1 4 = some 1 ∧
      next h1 4 = first reattachDemo 1 ∧ index h1 4 = some 2 ∧ first h1 1 = some 4 ∧
      first h1 0 = first reattachDemo 0 :=
  reattach_relinks reattachDemo 4 1 0 ⟨0, some 0, none, none, Obj.Filter 0⟩
    ⟨0, none, some 3, none, Obj.Filter 0⟩ (by decide) rfl (by decide) (by decide) (by decide)
    (by decide) 2
    (Or.inr ⟨3, ⟨1, some 1, none, some 2, Obj.Filter 0⟩, rfl, by decide, by decide⟩)

/-! ## C19: the capacity of the time reference of a `NuBuffer` -/

theorem deque_eq (h : Heap Obj) (p : Nat) :
    Obj.deque h p = (h[p]?).bind fun n =>
      match n.obj with
      | Obj.Buffer d => some d
      | Obj.NuBuffer d _ => some d
      | _ => none := by
  unfold Obj.deque
  cases h[p]? with
  | none => rfl
  | some n =>
    obtain ⟨a, b, c, d, o⟩ := n
    cases o <;> rfl

/-- The deque of an object depends on the derived members of the objects only. -/
theorem deque_of_objs (h g : Heap Obj) (e : g.map (fun m => m.obj) = h.map (fun m => m.obj))
    (p : Nat) : Obj.deque g p = Obj.deque h p := by
  have := congrArg (fun l => l[p]?) e
  simp only [List.getElem?_map] at this
  rw [deque_eq, deque_eq]
  cases hg : g[p]? <;> cases hh : h[p]? <;> simp_all

theorem timeRefOk_eq (g : Heap Obj) (this t : Nat) (n : ProcessChain Obj) (d td : List ℚ)
    (hn : g[this]? = some n) (ho : n.obj = Obj.NuBuffer d (some t))
    (ht : Obj.deque g t = some td) :
    NuBuffer.timeRefOk g this = decide (d.length ≤ td.length) := by
  obtain ⟨a, b, c, e, o⟩ := n
  simp only at ho
  subst ho
  simp only [NuBuffer.timeRefOk, hn, ht]

/-- C19 (counterexample): a `NuBuffer` of capacity 8 is constructed with a time reference of
capacity 2; `setTimeRef` binds the `NuBuffer` of capacity 8 to the time reference of capacity
2; and `NuBuffer::setParent` with a parent bound to the time reference of capacity 2 rebinds
the `NuBuffer` of capacity 8 to it. All three calls return. -/
theorem timeRef_smaller_bound :
    NuBuffer.timeRefOk NuBuffer.refDemo 2 = true ∧ NuBuffer.timeRefOk NuBuffer.refDemo 3 = true ∧
    (∃ h1, NuBuffer.create NuBuffer.refDemo 8 (some 0) none = some h1 ∧
      h1[4]? = some ⟨0, none, none, none, Obj.NuBuffer (List.replicate 8 0) (some 0)⟩ ∧
      Obj.deque h1 0 = some [0, 0] ∧ NuBuffer.timeRefOk h1 4 = false) ∧
    (∃ h1, NuBuffer.setTimeRef NuBuffer.refDemo 3 (some 0) = some h1 ∧
      h1[3]? = some ⟨0, none, none, none, Obj.NuBuffer (List.replicate 8 0) (some 0)⟩ ∧
      Obj.deque h1 0 = some [0, 0] ∧ NuBuffer.timeRefOk h1 3 = false) ∧
    (∃ h1, NuBuffer.setParent NuBuffer.refDemo 3 (some 2) = some h1 ∧
      h1[3]? = some ⟨0, some 2, none, none, Obj.NuBuffer (List.replicate 8 0) (some 0)⟩ ∧
      Obj.deque h1 0 = some [0, 0] ∧ NuBuffer.timeRefOk h1 3 = false) := by
  refine ⟨by decide, by decide, ⟨(NuBuffer.create NuBuffer.refDemo 8 (some 0) none).getD [], ?_⟩,
    ⟨(NuBuffer.setTimeRef NuBuffer.refDemo 3 (some 0)).getD [], ?_⟩,
    ⟨(NuBuffer.setParent NuBuffer.refDemo 3 (some 2)).getD [], ?_⟩⟩
  · exact ⟨by decide, by decide, by decide, by decide⟩
  · exact ⟨by decide, by decide, by decide, by decide⟩
  · exact ⟨by decide, by decide, by decide, by decide⟩

theorem setTimeRef_spec (h : Heap Obj) (this t : Nat) (node : ProcessChain Obj) (d td : List ℚ)
    (t0 : Option Nat) (hn : h[this]? = some node) (ho : node.obj = Obj.NuBuffer d t0)
    (ht : Obj.deque h t = some td) :
    NuBuffer.setTimeRef h this (some t)
      = some (h.set this { node with obj := Obj.NuBuffer d (some t) }) ∧
    NuBuffer.timeRefOk (h.set this { node with obj := Obj.NuBuffer d (some t) }) this
      = decide (d.length ≤ td.length) := by
  have htl : this < h.length := by
    by_contra hc
    rw [List.getElem?_eq_none (by omega)] at hn
    cases hn
  constructor
  · simp only [NuBuffer.setTimeRef, hn, ho, ASSERT, Option.bind, ht]
  · apply timeRefOk_eq _ this t { node with obj := Obj.NuBuffer d (some t) } d td
    · rw [List.getElem?_set_self htl]
    · rfl
    · rw [deque_eq] at ht ⊢
      by_cases e : this = t
      · subst e
        rw [hn] at ht
        simp only [Option.bind, ho] at ht
        rw [List.getElem?_set_self htl]
        exact ht
      · rw [List.getElem?_set_ne e]
        exact ht

/-- C19 (amended): the constructor of a `NuBuffer` (here without parent) and `setTimeRef` bind
any time reference that is not null, whatever its capacity, and `NuBuffer::setParent` rebinds
to the time reference of the parent wherever `ProcessChain::setParent` returns; after each of
them the capacity of the bound time reference is at least the capacity of the buffer exactly
when this holds of the time reference that was passed. -/
theorem timeRef_bound_spec (h : Heap Obj) (this t : Nat) (node : ProcessChain Obj)
    (d td : List ℚ) (t0 : Option Nat) (hn : h[this]? = some node)
    (ho : node.obj = Obj.NuBuffer d t0) (ht : Obj.deque h t = some td) (size : Nat) :
    (∃ h1, NuBuffer.create h size (some t) none = some h1 ∧
      (NuBuffer.timeRefOk h1 h.length = true ↔ size ≤ td.length)) ∧
    (∃ h1, NuBuffer.setTimeRef h this (some t) = some h1 ∧
      (NuBuffer.timeRefOk h1 this = true ↔ d.length ≤ td.length)) ∧
    (∀ p h0 pnode pd, ProcessChain.setParent h this (some p) = some h0 → h[p]? = some pnode →
      pnode.obj = Obj.NuBuffer pd (some t) →
      ∃ h1, NuBuffer.setParent h this (some p) = some h1 ∧
        (NuBuffer.timeRefOk h1 this = true ↔ d.length ≤ td.length)) := by
  have htl : t < h.length := by
    by_contra hc
    rw [deque_eq, List.getElem?_eq_none (by omega)] at ht
    cases ht
  refine ⟨?_, ?_, ?_⟩
  · have hg : (h ++ [(⟨0, none, none, none, Obj.NuBuffer (List.replicate size 0) none⟩ :
        ProcessChain Obj)])[h.length]?
        = some ⟨0, none, none, none, Obj.NuBuffer (List.replicate size 0) none⟩ := by simp
    have hd : Obj.deque (h ++ [(⟨0, none, none, none, Obj.NuBuffer (List.replicate size 0) none⟩ :
        ProcessChain Obj)]) t = some td := by
      rw [deque_eq, List.getElem?_append_left htl, ← deque_eq, ht]
    obtain ⟨e1, e2⟩ := setTimeRef_spec _ h.length t _ (List.replicate size 0) td none hg rfl hd
    have e3 : NuBuffer.create h size (some t) none = NuBuffer.setTimeRef
        (h ++ [(⟨0, none, none, none, Obj.NuBuffer (List.replicate size 0) none⟩ :
          ProcessChain Obj)]) h.length (some t) := by
      simp only [NuBuffer.create, new_root, Buffer.new, Buffer_T.float, ASSERT, Option.bind]
    rw [e3, e1]
    exact ⟨_, rfl, by rw [e2]; simp⟩
  · obtain ⟨e1, e2⟩ := setTimeRef_spec h this t node d td t0 hn ho ht
    exact ⟨_, e1, by rw [e2]; simp⟩
  · intro p h0 pnode pd hs hp hpo
    have hobjs := setParent_objs h h0 this (some p) hs
    have hl : h0.length = h.length := by
      have := congrArg List.length hobjs
      simpa using this
    have g : ∀ (i : Nat) (n : ProcessChain Obj), h[i]? = some n →
        ∃ n0 : ProcessChain Obj, h0[i]? = some n0 ∧ n0.obj = n.obj := by
      intro i n hi
      have := congrArg (fun l => l[i]?) hobjs
      simp only [List.getElem?_map, hi, Option.map] at this
      cases h0i : h0[i]? with
      | none => rw [h0i] at this; cases this
      | some n0 =>
        rw [h0i] at this
        exact ⟨n0, rfl, by simpa using this⟩
    obtain ⟨n0, hn0, ho0⟩ := g this node hn
    obtain ⟨p0, hp0, hpo0⟩ := g p pnode hp
    obtain ⟨a, b, c, e, o⟩ := p0
    simp only at hpo0
    rw [hpo] at hpo0
    subst hpo0
    rw [ho] at ho0
    have hd0 : Obj.deque h0 t = some td := by rw [deque_of_objs h h0 hobjs, ht]
    have hset : NuBuffer.setParent h this (some p)
        = some (h0.set this { n0 with obj := Obj.NuBuffer d (some t) }) := by
      simp only [NuBuffer.setParent, hs, Option.bind, hp0, hn0, ho0]
    refine ⟨_, hset, ?_⟩
    have := (setTimeRef_spec h0 this t n0 d td t0 hn0 ho0 hd0).2
    rw [this]
    simp

/-- C19 (witness): the `NuBuffer` of capacity 8 at address 3 of `refDemo` and the time
reference of capacity 2 at address 0, which the `NuBuffer` at address 2 is bound to. -/
theorem timeRef_bound_spec_witness :
    (∃ h1, NuBuffer.create NuBuffer.refDemo 8 (some 0) none = some h1 ∧
      (NuBuffer.timeRefOk h1 NuBuffer.refDemo.length = true ↔ 8 ≤ [(0 : ℚ), 0].length)) ∧
    (∃ h1, NuBuffer.setTimeRef NuBuffer.refDemo 3 (some 0) = some h1 ∧
      (NuBuffer.timeRefOk h1 3 = true ↔ (List.replicate 8 (0 : ℚ)).length ≤ [(0 : ℚ), 0].length)) ∧
    (∀ p h0 pnode pd, ProcessChain.setParent NuBuffer.refDemo 3 (some p) = some h0 →
      NuBuffer.refDemo[p]? = some pnode →
      pnode.obj = Obj.NuBuffer pd (some 0) →
      ∃ h1, NuBuffer.setParent NuBuffer.refDemo 3 (some p) = some h1 ∧
        (NuBuffer.timeRefOk h1 3 = true ↔
          (List.replicate 8 (0 : ℚ)).length ≤ [(0 : ℚ), 0].length)) :=
  timeRef_bound_spec NuBuffer.refDemo 3 0
    ⟨0, none, none, none, Obj.NuBuffer (List.replicate 8 0) (some 1)⟩ (List.replicate 8 0) [0, 0]
    (some 1) (by decide) rfl (by decide) 8

/-! ## C20: the histogram of `HistAntiJitter` and its window -/

/-- C20: after the pushes 2, 2, 2, 2 into the parent of a `HistAntiJitter(4, 5, -2, 2, 0.25)`
the window holds four times 2, all in bucket 4, while the histogram counts three values in
bucket 4 and one in bucket 2: the fourth push, which evicts a 0 (bucket 2), decrements
bucket 4, the bucket of the back element after the push. -/
theorem hist_counts_diverge :
    (Obj.pushAll 3 Obj.histSmallDemo 0 [2, 2, 2]).map (fun h => h.map (fun n => n.obj))
      = some [Obj.Filter 2, Obj.HistAntiJitter ⟨2, 5, 1, -2, 2, 4, [0, 0, 1, 0, 3]⟩ 2,
          Obj.Buffer [2, 2, 2, 0]] ∧
    (Obj.pushAll 3 Obj.histSmallDemo 0 [2, 2, 2, 2]).map (fun h => h.map (fun n => n.obj))
      = some [Obj.Filter 2, Obj.HistAntiJitter ⟨2, 5, 1, -2, 2, 4, [0, 0, 1, 0, 3]⟩ 2,
          Obj.Buffer [2, 2, 2, 2]] ∧
    HistAntiJitter.counts ⟨2, 5, 1, -2, 2, 4, [0, 0, 1, 0, 3]⟩ [2, 2, 2, 2] = [0, 0, 0, 0, 4] ∧
    HistAntiJitter.which ⟨2, 5, 1, -2, 2, 4, [0, 0, 1, 0, 3]⟩ 0 = some 2 ∧
    HistAntiJitter.which ⟨2, 5, 1, -2, 2, 4, [0, 0, 1, 0, 3]⟩ 2 = some 4 := by
  refine ⟨?_, ?_, ?_, ?_, ?_⟩ <;> decide!

/-! ## C21: the histogram of a `HistAntiJitter` fed through its parent -/

/-- C22: for a `HistAntiJitter` with `m_tMin < m_tMax`, the span `m_tMax - m_tMin` that the
constructor stores and at least 2 buckets, `what(h)` returns for every bucket
`h ≤ m_histSize - 1`, and `which` of its value is `h`. -/
theorem which_what (s : HistAntiJitter) (hdom : s.m_tMin < s.m_tMax)
    (hspan : s.m_tSpan = s.m_tMax - s.m_tMin) (h2 : 2 ≤ s.m_histSize)
    (hsz : s.m_histSize < SIZE_MOD) (h : Nat) (hh : h ≤ s.m_histSize - 1) :
    ∃ v, s.what h = some v ∧ s.which v = some h := by
  have hu : usub s.m_histSize 1 = s.m_histSize - 1 := by unfold usub SIZE_MOD at *; omega
  have hne : usub s.m_histSize 1 ≠ 0 := by rw [hu]; omega
  have hsp : s.m_tSpan ≠ 0 := by rw [hspan]; linarith
  refine ⟨_, by rw [HistAntiJitter.what, if_neg hne], ?_⟩
  have hpos : (0 : ℚ) < ((s.m_histSize - 1 : Nat) : ℚ) := by
    have : 0 < s.m_histSize - 1 := by omega
    exact_mod_cast this
  have hle : (h : ℚ) ≤ ((s.m_histSize - 1 : Nat) : ℚ) := by exact_mod_cast hh
  have hq : (s.m_tSpan * (h : ℚ) / ((s.m_histSize - 1 : Nat) : ℚ) + s.m_tMin - s.m_tMin)
      / s.m_tSpan = (h : ℚ) / ((s.m_histSize - 1 : Nat) : ℚ) := by
    rw [add_sub_cancel_right, mul_div_assoc, mul_div_cancel_left₀ _ hsp]
  have h0 : ¬ (h : ℚ) / ((s.m_histSize - 1 : Nat) : ℚ) < 0 :=
    not_lt.mpr (div_nonneg (Nat.cast_nonneg h) hpos.le)
  have h1 : ¬ (h : ℚ) / ((s.m_histSize - 1 : Nat) : ℚ) > 1 :=
    not_lt.mpr ((div_le_one hpos).mpr hle)
  have hm : (h : ℚ) / ((s.m_histSize - 1 : Nat) : ℚ) * ((s.m_histSize - 1 : Nat) : ℚ)
      = (h : ℚ) := div_mul_cancel₀ _ hpos.ne.symm
  simp only [HistAntiJitter.which, if_neg hsp, hu, hq, if_neg h0, if_neg h1, hm]
  simp [toSize]

/-- C22 (witness): the filter `HistAntiJitter(4, 5, -2, 2, 0.25)` and the bucket 3. -/
theorem which_what_witness :
    ∃ v, HistAntiJitter.freshDemo.what 3 = some v ∧ HistAntiJitter.freshDemo.which v = some 3 :=
  which_what HistAntiJitter.freshDemo (by decide) (by decide!) (by decide) (by decide) 3
    (by decide)

/-! ## C23: `HistAntiJitter` with the margin 0 -/

theorem foldl_replicate_fix {T : Type} (f : T → T → T) (z : T) (hf : f z z = z) (n : Nat) :
    (List.replicate n z).foldl f z = z := by
  induction n with
  | zero => rfl
  | succ n ih => rw [List.replicate_succ, List.foldl_cons, hf, ih]

/-- The largest and the smallest element of a window of `n + 1` equal values. -/
theorem extremum_replicate {T : Type} [LinearOrder T] (z : T) (n : Nat) :
    maxElement (List.replicate (n + 1) z) = some z ∧
    minElement (List.replicate (n + 1) z) = some z := by
  constructor
  · simp only [List.replicate_succ, maxElement]
    rw [foldl_replicate_fix _ z (by simp) n]
  · simp only [List.replicate_succ, minElement]
    rw [foldl_replicate_fix _ z (by simp) n]

/-- A filter with a member `m_input`, constructed without parent and pushed into directly,
when its `process` returns `y` and leaves the heap as it is: so does every push. -/
theorem pushAll_direct (f : Obj) (d : List ℚ) (y : ℚ)
    (ho : Obj.out (Obj.directHeap f d) 0 = some y)
    (hp : ∀ x, Obj.process (Obj.directHeap f d) 0 x = some (y, Obj.directHeap f d))
    (xs : List ℚ) :
    (∀ x, Obj.push 1 (Obj.directHeap f d) 0 x = some (y, Obj.directHeap f d, [(0, x)])) ∧
    Obj.pushAll 1 (Obj.directHeap f d) 0 xs = some (Obj.directHeap f d) ∧
    Obj.outputs 1 (Obj.directHeap f d) 0 0 xs = some (List.replicate xs.length y) := by
  have hn : next (Obj.directHeap f d) 0 = none := rfl
  have hf : first (Obj.directHeap f d) 0 = none := rfl
  have hpush : ∀ x, Obj.push 1 (Obj.directHeap f d) 0 x
      = some (y, Obj.directHeap f d, [(0, x)]) := by
    intro x
    unfold Obj.push
    rw [ProcessChain.push, hp x]
    simp only [hn, hf, pushOpt]
    rfl
  refine ⟨hpush, ?_, ?_⟩
  · induction xs with
    | nil => rfl
    | cons x xs ih => simp only [Obj.pushAll, hpush, Option.bind, ih]
  · induction xs with
    | nil => rfl
    | cons x xs ih =>
      simp only [Obj.outputs, hpush, Option.bind, ho, ih, Option.map, List.length_cons,
        List.replicate_succ]

/-- C25: a `HoldHigh` or `HoldLow` of window size `n ≥ 1` constructed without parent sits at
address 0 with its `m_input`, a window of `n` zeros, at address 1. Every push into the filter
itself calls `process` of the filter only, returns the trait zero and leaves all objects, the
window among them, as they were; so do any pushes `xs`, and the outputs after each of them
are zero. For `int` the `process` of both filters on the window of `n` zeros is the trait
zero as well. -/
theorem hold_direct_push (n : Nat) (hn : 1 ≤ n) (xs : List ℚ) :
    HoldHigh.create [] n none
      = some (Obj.directHeap (Obj.HoldHigh 0 1) (List.replicate n 0)) ∧
    HoldLow.create [] n none
      = some (Obj.directHeap (Obj.HoldLow 0 1) (List.replicate n 0)) ∧
    (∀ x, Obj.push 1 (Obj.directHeap (Obj.HoldHigh 0 1) (List.replicate n 0)) 0 x
      = some (Filter_T.float.zero, Obj.directHeap (Obj.HoldHigh 0 1) (List.replicate n 0),
          [(0, x)])) ∧
    (∀ x, Obj.push 1 (Obj.directHeap (Obj.HoldLow 0 1) (List.replicate n 0)) 0 x
      = some (Filter_T.float.zero, Obj.directHeap (Obj.HoldLow 0 1) (List.replicate n 0),
          [(0, x)])) ∧
    Obj.pushAll 1 (Obj.directHeap (Obj.HoldHigh 0 1) (List.replicate n 0)) 0 xs
      = some (Obj.directHeap (Obj.HoldHigh 0 1) (List.replicate n 0)) ∧
    Obj.pushAll 1 (Obj.directHeap (Obj.HoldLow 0 1) (List.replicate n 0)) 0 xs
      = some (Obj.directHeap (Obj.HoldLow 0 1) (List.replicate n 0)) ∧
    Obj.outputs 1 (Obj.directHeap (Obj.HoldHigh 0 1) (List.replicate n 0)) 0 0 xs
      = some (List.replicate xs.length Filter_T.float.zero) ∧
    Obj.outputs 1 (Obj.directHeap (Obj.HoldLow 0 1) (List.replicate n 0)) 0 0 xs
      = some (List.replicate xs.length Filter_T.float.zero) ∧
    (∀ x : ℤ, HoldHigh.process (Buffer.new Buffer_T.int n) x = some Filter_T.int.zero) ∧
    (∀ x : ℤ, HoldLow.process (Buffer.new Buffer_T.int n) x = some Filter_T.int.zero) := by
  obtain ⟨k, rfl⟩ : ∃ k, n = k + 1 := ⟨n - 1, by omega⟩
  have pH : ∀ x, Obj.process (Obj.directHeap (Obj.HoldHigh 0 1) (List.replicate (k + 1) 0)) 0 x
      = some (0, Obj.directHeap (Obj.HoldHigh 0 1) (List.replicate (k + 1) 0)) := by
    intro x
    have hd : Obj.deque (Obj.directHeap (Obj.HoldHigh 0 1) (List.replicate (k + 1) 0)) 1
        = some (List.replicate (k + 1) 0) := rfl
    have hg : (Obj.directHeap (Obj.HoldHigh 0 1) (List.replicate (k + 1) 0))[0]?
        = some ⟨0, some 1, none, none, Obj.HoldHigh 0 1⟩ := rfl
    simp only [Obj.process, hg, Obj.step, hd, Option.bind,
      HoldHigh.process, (extremum_replicate (0 : ℚ) k).1, Option.map]
    rfl
  have pL : ∀ x, Obj.process (Obj.directHeap (Obj.HoldLow 0 1) (List.replicate (k + 1) 0)) 0 x
      = some (0, Obj.directHeap (Obj.HoldLow 0 1) (List.replicate (k + 1) 0)) := by
    intro x
    have hd : Obj.deque (Obj.directHeap (Obj.HoldLow 0 1) (List.replicate (k + 1) 0)) 1
        = some (List.replicate (k + 1) 0) := rfl
    have hg : (Obj.directHeap (Obj.HoldLow 0 1) (List.replicate (k + 1) 0))[0]?
        = some ⟨0, some 1, none, none, Obj.HoldLow 0 1⟩ := rfl
    simp only [Obj.process, hg, Obj.step, hd, Option.bind,
      HoldLow.process, (extremum_replicate (0 : ℚ) k).2, Option.map]
    rfl
  obtain ⟨a1, a2, a3⟩ := pushAll_direct (Obj.HoldHigh 0 1) (List.replicate (k + 1) 0) 0 rfl
    pH xs
  obtain ⟨b1, b2, b3⟩ := pushAll_direct (Obj.HoldLow 0 1) (List.replicate (k + 1) 0) 0 rfl
    pL xs
  refine ⟨rfl, rfl, a1, b1, a2, b2, a3, b3, ?_, ?_⟩
  · intro x
    exact (extremum_replicate (0 : ℤ) k).1
  · intro x
    exact (extremum_replicate (0 : ℤ) k).2

/-- C25 (witness): window size 3 and the pushes 7, -4, 9 into the filters themselves. -/
theorem hold_direct_push_witness :
    HoldHigh.create [] 3 none
      = some (Obj.directHeap (Obj.HoldHigh 0 1) (List.replicate 3 0)) ∧
    HoldLow.create [] 3 none
      = some (Obj.directHeap (Obj.HoldLow 0 1) (List.replicate 3 0)) ∧
    (∀ x, Obj.push 1 (Obj.directHeap (Obj.HoldHigh 0 1) (List.replicate 3 0)) 0 x
      = some (Filter_T.float.zero, Obj.directHeap (Obj.HoldHigh 0 1) (List.replicate 3 0),
          [(0, x)])) ∧
    (∀ x, Obj.push 1 (Obj.directHeap (Obj.HoldLow 0 1) (List.replicate 3 0)) 0 x
      = some (Filter_T.float.zero, Obj.directHeap (Obj.HoldLow 0 1) (List.replicate 3 0),
          [(0, x)])) ∧
    Obj.pushAll 1 (Obj.directHeap (Obj.HoldHigh 0 1) (List.replicate 3 0)) 0 [7, -4, 9]
      = some (Obj.directHeap (Obj.HoldHigh 0 1) (List.replicate 3 0)) ∧
    Obj.pushAll 1 (Obj.directHeap (Obj.HoldLow 0 1) (List.replicate 3 0)) 0 [7, -4, 9]
      = some (Obj.directHeap (Obj.HoldLow 0 1) (List.replicate 3 0)) ∧
    Obj.outputs 1 (Obj.directHeap (Obj.HoldHigh 0 1) (List.replicate 3 0)) 0 0 [7, -4, 9]
      = some (List.replicate ([7, -4, 9] : List ℚ).length Filter_T.float.zero) ∧
    Obj.outputs 1 (Obj.directHeap (Obj.HoldLow 0 1) (List.replicate 3 0)) 0 0 [7, -4, 9]
      = some (List.replicate ([7, -4, 9] : List ℚ).length Filter_T.float.zero) ∧
    (∀ x : ℤ, HoldHigh.process (Buffer.new Buffer_T.int 3) x = some Filter_T.int.zero) ∧
    (∀ x : ℤ, HoldLow.process (Buffer.new Buffer_T.int 3) x = some Filter_T.int.zero) :=
  hold_direct_push 3 (by decide) [7, -4, 9]

end FilterLib
